import Mathlib

/-!
# PaperTrail: the backend API (`backend/app.js`) as a Lean model

The Express handlers of `backend/app.js` are embedded as pure functions on an
explicit database value `Db` (the four `Map`s of the mock database).

Conventions of the embedding

* A JavaScript string is a Lean `String`; the substrings the code searches for
  are ASCII, for which search by code unit and search by character agree.  A
  request field that may be absent is an `Option String` (`none` is
  `undefined`).  Request bodies are taken to carry string fields only, so a
  field is falsy exactly when it is absent or `""`.
* A JavaScript `Map` is an association list in insertion order (`Store`).
* `new Date().toISOString()` is the millisecond instant as a `Nat`; parsing it
  back with `new Date(s)` gives the same instant, so the comparators subtract
  the instants.
* Values the host produces while a handler runs (`uuidv4()`, the clock, the
  bcrypt salt, the signed token) are arguments of the handler, in the order in
  which the handler asks for them.
* Library functions (`toLowerCase`, `parseInt`, `bcrypt.compare`) are
  parameters (`Runtime`).
* The handlers of upload, listing, share, audit and health are synchronous, and
  the login handler writes nothing, so each is one step.  The registration
  handler awaits the password hash between its email lookup and its insert:
  it is embedded in two parts (`registerCheck`, `registerCommit`), `register`
  is the two parts with nothing in between, and `Server` / `serve` let other
  requests run while registrations wait.
-/

namespace PaperTrail

/-! ## Strings -/

/-- Substring test on character lists: does `needle` occur in `hay`? -/
def includesChars (hay needle : List Char) : Bool :=
  match hay with
  | [] => needle.isEmpty
  | c :: cs => needle.isPrefixOf (c :: cs) || includesChars cs needle

/-- The method `String.prototype.includes`. -/
def includes (s search : String) : Bool :=
  includesChars s.data search.data

/-- The ASCII part of `String.prototype.toLowerCase`: `A`..`Z` go to `a`..`z`,
every other character is kept.  On an ASCII string this is what the host
computes. -/
def asciiToLowerCase (s : String) : String :=
  ⟨s.data.map Char.toLower⟩

/-! ## Categorizer (`app.js`, lines 79-90) -/

/-- The object `{ category, subcategory }` returned by `categorizeDocument`. -/
structure Categorized where
  category : String
  subcategory : String
deriving DecidableEq, Repr

/-- The function `categorizeDocument`; `toLowerCase` is the host's
`String.prototype.toLowerCase`. -/
def categorizeDocument (toLowerCase : String → String) (filename : String) : Categorized :=
  let lower := toLowerCase filename
  if includes lower "w2" || includes lower "w-2" then ⟨"tax", "w2"⟩
  else if includes lower "1040" then ⟨"tax", "1040"⟩
  else if includes lower "1099" then ⟨"tax", "1099"⟩
  else if includes lower "paystub" || includes lower "payroll" then ⟨"income", "paystub"⟩
  else if includes lower "bank" || includes lower "statement" then ⟨"banking", "bank_statement"⟩
  else if includes lower "mortgage" || includes lower "loan" then ⟨"loans", "mortgage"⟩
  else ⟨"tax", "other"⟩

/-- The function `categorizeFile` of the upload form (`frontend/src/App.js`,
lines 108-115); `toLowerCase` is the host's `String.prototype.toLowerCase`. -/
def categorizeFile (toLowerCase : String → String) (filename : String) : String :=
  let lower := toLowerCase filename
  if includes lower "w2" || includes lower "w-2" then "tax"
  else if includes lower "paystub" || includes lower "payroll" then "income"
  else if includes lower "bank" || includes lower "statement" then "banking"
  else if includes lower "mortgage" || includes lower "loan" then "loans"
  else "tax"

/-- A rule of the categorizer as the specification words it: the substrings
that trigger it and the pair it yields. -/
structure CategoryRule where
  needles : List String
  result : Categorized

/-- The rule table of the specification, in priority order. -/
def categoryRules : List CategoryRule :=
  [ ⟨["w2", "w-2"], ⟨"tax", "w2"⟩⟩,
    ⟨["1040"], ⟨"tax", "1040"⟩⟩,
    ⟨["1099"], ⟨"tax", "1099"⟩⟩,
    ⟨["paystub", "payroll"], ⟨"income", "paystub"⟩⟩,
    ⟨["bank", "statement"], ⟨"banking", "bank_statement"⟩⟩,
    ⟨["mortgage", "loan"], ⟨"loans", "mortgage"⟩⟩ ]

/-- Does the rule match the lower-cased name `l` (one of its substrings occurs
in `l`)? -/
def CategoryRule.fires (l : String) (r : CategoryRule) : Bool :=
  r.needles.any (fun n => includes l n)

/-- First-match-wins over the rule table, `tax/other` when no rule matches:
the categorizer as the specification describes it. -/
def firstMatchingRule (rules : List CategoryRule) (l : String) : Categorized :=
  match rules.find? (CategoryRule.fires l) with
  | some r => r.result
  | none => ⟨"tax", "other"⟩

/-! ## The mock database (`app.js`, lines 58-64) -/

/-- A JavaScript `Map` with string keys: the entries in insertion order. -/
abbrev Store (V : Type) := List (String × V)

/-- The method `Map.prototype.get`. -/
def Store.get {V : Type} (m : Store V) (k : String) : Option V :=
  match m with
  | [] => none
  | (k', v) :: rest => if k' = k then some v else Store.get rest k

/-- Does the map have the key (`Map.prototype.has`)? -/
def Store.has {V : Type} (m : Store V) (k : String) : Bool :=
  m.any (fun e => e.1 == k)

/-- The method `Map.prototype.set`: an existing key keeps its place and takes
the new value, a new key is appended. -/
def Store.set {V : Type} (m : Store V) (k : String) (v : V) : Store V :=
  if Store.has m k then m.map (fun e => if e.1 = k then (k, v) else e) else m ++ [(k, v)]

/-- The expression `Array.from(map.values())`: the values in insertion order. -/
def Store.values {V : Type} (m : Store V) : List V :=
  m.map Prod.snd

/-- A user record (`app.js`, lines 146-154). -/
structure User where
  id : String
  email : String
  passwordHash : String
  firstName : String
  lastName : String
  createdAt : Nat
  subscriptionTier : String
deriving DecidableEq, Repr

/-- A number as `parseInt` returns it: `NaN` or an integer value. -/
inductive JsNumber where
  | nan
  | int (n : Int)
deriving DecidableEq, Repr

/-- A document record (`app.js`, lines 202-215); `taxYear` is `none` for
`null`. -/
structure Document where
  id : String
  userId : String
  filename : String
  originalName : String
  fileSize : Nat
  mimeType : String
  storagePath : String
  category : String
  subcategory : String
  taxYear : Option JsNumber
  description : String
  createdAt : Nat
deriving DecidableEq, Repr

/-- A share grant (`app.js`, lines 269-280); `expiresAt` is `none` for
`null`. -/
structure Permission where
  id : String
  documentId : String
  grantedBy : String
  grantedToEmail : String
  grantedToName : String
  role : String
  expiresAt : Option String
  isActive : Bool
  createdAt : Nat
  accessToken : String
deriving DecidableEq, Repr

/-- An audit entry (`app.js`, lines 94-105).  `metadata` is a JSON object with
string values, as a key-value list. -/
structure AuditLog where
  id : String
  documentId : String
  userId : Option String
  action : String
  ipAddress : Option String
  userAgent : Option String
  accessedByEmail : Option String
  accessedByName : Option String
  metadata : List (String × String)
  createdAt : Nat
deriving DecidableEq, Repr

/-- The object `db`: the four maps of the mock database. -/
structure Db where
  users : Store User
  documents : Store Document
  permissions : Store Permission
  auditLogs : Store AuditLog
deriving DecidableEq, Repr

/-- The database at start-up: four empty maps. -/
def Db.empty : Db := ⟨[], [], [], []⟩

/-! ## Sorting -/

/-- Insert `x` in front of the first element it does not have to follow
according to the comparator (`cmp x y ≤ 0`). -/
def sortInsert {α : Type} (cmp : α → α → Int) (x : α) : List α → List α
  | [] => [x]
  | y :: ys => if cmp x y ≤ 0 then x :: y :: ys else y :: sortInsert cmp x ys

/-- The method `Array.prototype.sort(cmp)`.  The language requires the sort to
be stable, and for a consistent comparator the stable sorted arrangement is
unique; it is computed here by insertion from the right, which keeps elements
that compare equal in their original order. -/
def jsSort {α : Type} (cmp : α → α → Int) : List α → List α
  | [] => []
  | x :: xs => sortInsert cmp x (jsSort cmp xs)

/-- The comparator `(a, b) => new Date(b.createdAt) - new Date(a.createdAt)`
on the instants. -/
def newestFirst (a b : Nat) : Int :=
  (b : Int) - (a : Int)

/-! ## Responses -/

/-- The user object of a response: the record without `passwordHash`
(`const { passwordHash: _, ...userResponse } = user`). -/
structure UserResponse where
  id : String
  email : String
  firstName : String
  lastName : String
  createdAt : Nat
  subscriptionTier : String
deriving DecidableEq, Repr

/-- The destructuring that drops `passwordHash`. -/
def User.withoutPasswordHash (u : User) : UserResponse :=
  ⟨u.id, u.email, u.firstName, u.lastName, u.createdAt, u.subscriptionTier⟩

/-- An element of the listing: `{ ...doc, sharedWith: permissions }`. -/
structure DocumentWithPermissions where
  doc : Document
  sharedWith : List Permission
deriving DecidableEq, Repr

/-- The JSON bodies the handlers send. -/
inductive Body where
  | error (error : String)
  | auth (user : UserResponse) (token : String)
  | document (document : Document)
  | documents (documents : List DocumentWithPermissions)
  | permission (permission : Permission)
  | auditLogs (auditLogs : List AuditLog)
  | health (status : String) (timestamp : Nat) (version : String)
deriving DecidableEq, Repr

/-- A response: the status code and the JSON body. -/
structure Response where
  status : Nat
  body : Body
deriving DecidableEq, Repr

/-! ## Requests -/

/-- Truthiness of a request field: the string when the field is present and
not `""`, nothing otherwise.  `!x` is `(truthy x).isNone`, and `x || y` is
`(truthy x).getD y`. -/
def truthy : Option String → Option String
  | some s => if s = "" then none else some s
  | none => none

/-- The body of `POST /api/auth/register`. -/
structure RegisterBody where
  email : Option String
  password : Option String
  firstName : Option String
  lastName : Option String
deriving DecidableEq, Repr

/-- The body of `POST /api/auth/login`. -/
structure LoginBody where
  email : Option String
  password : Option String
deriving DecidableEq, Repr

/-- The object `req.file` that the upload middleware leaves for the handler. -/
structure UploadedFile where
  originalname : String
  filename : String
  size : Nat
  mimetype : String
  path : String
deriving DecidableEq, Repr

/-- What the upload handler reads from the request: `req.file`, the four body
fields, `req.ip` and the `User-Agent` header. -/
structure UploadRequest where
  file : Option UploadedFile
  category : Option String
  subcategory : Option String
  taxYear : Option String
  description : Option String
  ip : Option String
  userAgent : Option String
deriving DecidableEq, Repr

/-- What the share handler reads from the request: the four body fields,
`req.ip` and the `User-Agent` header. -/
structure ShareRequest where
  grantedToEmail : Option String
  grantedToName : Option String
  role : Option String
  expiresAt : Option String
  ip : Option String
  userAgent : Option String
deriving DecidableEq, Repr

/-- The library functions the handlers call. -/
structure Runtime where
  /-- The method `String.prototype.toLowerCase`. -/
  toLowerCase : String → String
  /-- The global `parseInt` on a string. -/
  parseInt : String → JsNumber
  /-- The outcome of `bcrypt.compare(password, hash)` on two strings. -/
  bcryptCompare : String → String → Bool

/-! ## Audit log (`app.js`, lines 92-109) -/

/-- The `metadata` argument of `logAudit`; `additionalData` is `none` when the
caller leaves it out. -/
structure AuditMetadata where
  ipAddress : Option String
  userAgent : Option String
  accessedByEmail : Option String
  accessedByName : Option String
  additionalData : Option (List (String × String))
deriving DecidableEq, Repr

/-- The function `logAudit`; `logId` is the result of its `uuidv4()` and `now`
the reading of its `new Date()`. -/
def logAudit (db : Db) (documentId action : String) (userId : Option String)
    (metadata : AuditMetadata) (logId : String) (now : Nat) : Db × AuditLog :=
  let auditLog : AuditLog :=
    { id := logId
      documentId := documentId
      userId := userId
      action := action
      ipAddress := metadata.ipAddress
      userAgent := metadata.userAgent
      accessedByEmail := metadata.accessedByEmail
      accessedByName := metadata.accessedByName
      metadata := metadata.additionalData.getD []
      createdAt := now }
  ({ db with auditLogs := db.auditLogs.set logId auditLog }, auditLog)

/-! ## Route handlers -/

/-- What the registration handler holds while it waits for the password hash:
the four fields it took from the body. -/
structure PendingRegistration where
  email : String
  password : String
  firstName : String
  lastName : String
deriving DecidableEq, Repr

/-- The registration handler up to its `await` (`app.js`, lines 132-141): the
check of the four fields and the lookup of the email.  It either answers at
once (400 or 409) or goes on to hash the password. -/
def registerCheck (db : Db) (body : RegisterBody) : Except Response PendingRegistration :=
  match truthy body.email, truthy body.password, truthy body.firstName, truthy body.lastName with
  | some email, some password, some firstName, some lastName =>
    let existingUser := db.users.values.find? (fun u => u.email == email)
    if existingUser.isSome then
      .error ⟨409, .error "User already exists"⟩
    else
      .ok ⟨email, password, firstName, lastName⟩
  | _, _, _, _ => .error ⟨400, .error "Missing required fields"⟩

/-- The registration handler after its `await` (`app.js`, lines 145-160), on
the database as it is when the hash arrives.  Host values in order of use: the
bcrypt hash of the password, the `uuidv4()` of the user, the clock, the signed
token. -/
def registerCommit (db : Db) (pending : PendingRegistration) (passwordHash userId : String)
    (now : Nat) (token : String) : Db × Response :=
  let user : User :=
    { id := userId
      email := pending.email
      passwordHash := passwordHash
      firstName := pending.firstName
      lastName := pending.lastName
      createdAt := now
      subscriptionTier := "free" }
  ({ db with users := db.users.set userId user }, ⟨201, .auth user.withoutPasswordHash token⟩)

/-- The handler of `POST /api/auth/register` (`app.js`, lines 130-166) when no
other request is handled while it waits for the hash: the part before the
`await` and the part after it on the same database. -/
def register (db : Db) (body : RegisterBody) (passwordHash userId : String) (now : Nat)
    (token : String) : Db × Response :=
  match registerCheck db body with
  | .error response => (db, response)
  | .ok pending => registerCommit db pending passwordHash userId now token

/-- The handler of `POST /api/auth/login` (`app.js`, lines 168-190).  With the
password absent `bcrypt.compare` rejects its argument and the `catch` block
answers 500. -/
def login (rt : Runtime) (db : Db) (body : LoginBody) (token : String) : Db × Response :=
  match db.users.values.find? (fun u => some u.email == body.email) with
  | none => (db, ⟨401, .error "Invalid credentials"⟩)
  | some user =>
    match body.password with
    | none => (db, ⟨500, .error "Internal server error"⟩)
    | some password =>
      if !rt.bcryptCompare password user.passwordHash then
        (db, ⟨401, .error "Invalid credentials"⟩)
      else
        (db, ⟨200, .auth user.withoutPasswordHash token⟩)

/-- The handler of `POST /api/documents/upload` (`app.js`, lines 192-231),
entered with `req.userId` set by the authentication middleware. -/
def upload (rt : Runtime) (db : Db) (userId : String) (req : UploadRequest)
    (documentId : String) (tDoc : Nat) (logId : String) (tLog : Nat) : Db × Response :=
  match req.file with
  | none => (db, ⟨400, .error "No file uploaded"⟩)
  | some file =>
    let autoCategorized := categorizeDocument rt.toLowerCase file.originalname
    let document : Document :=
      { id := documentId
        userId := userId
        filename := file.filename
        originalName := file.originalname
        fileSize := file.size
        mimeType := file.mimetype
        storagePath := file.path
        category := (truthy req.category).getD autoCategorized.category
        subcategory := (truthy req.subcategory).getD autoCategorized.subcategory
        taxYear := (truthy req.taxYear).map rt.parseInt
        description := (truthy req.description).getD ""
        createdAt := tDoc }
    let db1 := { db with documents := db.documents.set documentId document }
    let logged := logAudit db1 documentId "upload" (some userId)
      ⟨req.ip, req.userAgent, none, some "You", none⟩ logId tLog
    (logged.1, ⟨201, .document document⟩)

/-- The handler of `GET /api/documents` (`app.js`, lines 233-252). -/
def listDocuments (db : Db) (userId : String) : Db × Response :=
  let userDocuments :=
    jsSort (fun a b => newestFirst a.createdAt b.createdAt)
      (db.documents.values.filter (fun doc => doc.userId == userId))
  let documentsWithPermissions := userDocuments.map (fun doc =>
    let permissions :=
      db.permissions.values.filter (fun perm => perm.documentId == doc.id && perm.isActive)
    (⟨doc, permissions⟩ : DocumentWithPermissions))
  (db, ⟨200, .documents documentsWithPermissions⟩)

/-- The handler of `POST /api/documents/:id/share` (`app.js`, lines 254-299);
`id` is `req.params.id`. -/
def share (db : Db) (userId id : String) (req : ShareRequest)
    (permissionId : String) (tPerm : Nat) (accessToken logId : String) (tLog : Nat) :
    Db × Response :=
  match db.documents.get id with
  | none => (db, ⟨404, .error "Document not found"⟩)
  | some document =>
    if document.userId != userId then
      (db, ⟨404, .error "Document not found"⟩)
    else
      match truthy req.grantedToEmail, truthy req.grantedToName, truthy req.role with
      | some grantedToEmail, some grantedToName, some role =>
        let permission : Permission :=
          { id := permissionId
            documentId := document.id
            grantedBy := userId
            grantedToEmail := grantedToEmail
            grantedToName := grantedToName
            role := role
            expiresAt := truthy req.expiresAt
            isActive := true
            createdAt := tPerm
            accessToken := accessToken }
        let db1 := { db with permissions := db.permissions.set permissionId permission }
        let logged := logAudit db1 document.id "share" (some userId)
          ⟨req.ip, req.userAgent, none, some "You",
            some [("sharedWith", grantedToEmail), ("role", role)]⟩ logId tLog
        (logged.1, ⟨201, .permission permission⟩)
      | _, _, _ => (db, ⟨400, .error "Missing required fields"⟩)

/-- The handler of `GET /api/documents/:id/audit` (`app.js`, lines 301-319). -/
def audit (db : Db) (userId id : String) : Db × Response :=
  match db.documents.get id with
  | none => (db, ⟨404, .error "Document not found"⟩)
  | some document =>
    if document.userId != userId then
      (db, ⟨404, .error "Document not found"⟩)
    else
      let auditLogs :=
        jsSort (fun a b => newestFirst a.createdAt b.createdAt)
          (db.auditLogs.values.filter (fun log => log.documentId == document.id))
      (db, ⟨200, .auditLogs auditLogs⟩)

/-- The handler of `GET /api/health` (`app.js`, lines 321-327). -/
def health (db : Db) (now : Nat) : Db × Response :=
  (db, ⟨200, .health "healthy" now "1.0.0"⟩)

/-! ## Sequences of calls -/

/-- One API call together with the host values its handler consumes. -/
inductive Call where
  | register (body : RegisterBody) (passwordHash userId : String) (now : Nat) (token : String)
  | login (body : LoginBody) (token : String)
  | upload (userId : String) (req : UploadRequest) (documentId : String) (tDoc : Nat)
      (logId : String) (tLog : Nat)
  | listDocuments (userId : String)
  | share (userId id : String) (req : ShareRequest) (permissionId : String) (tPerm : Nat)
      (accessToken logId : String) (tLog : Nat)
  | audit (userId id : String)
  | health (now : Nat)
deriving DecidableEq, Repr

/-- Run the handler of a call on the database. -/
def step (rt : Runtime) (db : Db) : Call → Db × Response
  | .register body passwordHash userId now token => register db body passwordHash userId now token
  | .login body token => login rt db body token
  | .upload userId req documentId tDoc logId tLog =>
    upload rt db userId req documentId tDoc logId tLog
  | .listDocuments userId => listDocuments db userId
  | .share userId id req permissionId tPerm accessToken logId tLog =>
    share db userId id req permissionId tPerm accessToken logId tLog
  | .audit userId id => audit db userId id
  | .health now => health db now

/-- The database after a sequence of calls, one after the other. -/
def run (rt : Runtime) (db : Db) : List Call → Db
  | [] => db
  | c :: cs => run rt (step rt db c).1 cs

/-- The identifiers that `uuidv4()` hands to the call are not yet keys of the
maps they are stored in. -/
def Call.fresh (db : Db) : Call → Bool
  | .register _ _ userId _ _ => !db.users.has userId
  | .upload _ _ documentId _ logId _ => !db.documents.has documentId && !db.auditLogs.has logId
  | .share _ _ _ permissionId _ _ logId _ =>
    !db.permissions.has permissionId && !db.auditLogs.has logId
  | _ => true

/-- Every call of the sequence gets fresh identifiers in the state it runs
in. -/
def freshRun (rt : Runtime) (db : Db) : List Call → Bool
  | [] => true
  | c :: cs => c.fresh db && freshRun rt (step rt db c).1 cs

/-- The responses of a sequence of calls, one after the other. -/
def responses (rt : Runtime) (db : Db) : List Call → List Response
  | [] => []
  | c :: cs => (step rt db c).2 :: responses rt (step rt db c).1 cs

/-! ## The end-to-end scenario -/

/-- One run of the scenario `register A, login A, upload "w2_2023.pdf", share
with "cpa@x.com" as "cpa", fetch the audit trail`: what the client is free to
choose and what the host supplies. -/
structure Scenario where
  email : String
  password : String
  firstName : String
  lastName : String
  storedName : String
  size : Nat
  mimetype : String
  path : String
  taxYear : Option String
  description : Option String
  grantedToName : String
  expiresAt : Option String
  ip : Option String
  userAgent : Option String
  passwordHash : String
  userId : String
  tUser : Nat
  registerToken : String
  loginToken : String
  documentId : String
  tDoc : Nat
  uploadLogId : String
  tUploadLog : Nat
  permissionId : String
  tPerm : Nat
  accessToken : String
  shareLogId : String
  tShareLog : Nat

/-- The five calls of the scenario.  The upload carries no category and no
subcategory; the share and the audit call name the uploaded document. -/
def Scenario.calls (s : Scenario) : List Call :=
  [ .register ⟨some s.email, some s.password, some s.firstName, some s.lastName⟩
      s.passwordHash s.userId s.tUser s.registerToken,
    .login ⟨some s.email, some s.password⟩ s.loginToken,
    .upload s.userId
      ⟨some ⟨"w2_2023.pdf", s.storedName, s.size, s.mimetype, s.path⟩, none, none, s.taxYear,
        s.description, s.ip, s.userAgent⟩
      s.documentId s.tDoc s.uploadLogId s.tUploadLog,
    .share s.userId s.documentId
      ⟨some "cpa@x.com", some s.grantedToName, some "cpa", s.expiresAt, s.ip, s.userAgent⟩
      s.permissionId s.tPerm s.accessToken s.shareLogId s.tShareLog,
    .audit s.userId s.documentId ]

/-- The actions of the entries of an audit response, in order (nothing for
another body). -/
def Response.actions (r : Response) : List String :=
  match r.body with
  | .auditLogs logs => logs.map (fun l => l.action)
  | _ => []

/-- A run of the scenario on the empty database in which the upload entry and
the share entry are created in the same millisecond. -/
def sameMillisecond : Scenario :=
  { email := "a@x.com", password := "secret", firstName := "A", lastName := "User"
    storedName := "f-1.pdf", size := 42, mimetype := "application/pdf"
    path := "uploads/f-1.pdf", taxYear := none, description := none
    grantedToName := "Pat", expiresAt := none, ip := none, userAgent := none
    passwordHash := "h:secret", userId := "u-1", tUser := 1000
    registerToken := "t-0", loginToken := "t-1"
    documentId := "d-1", tDoc := 2000, uploadLogId := "l-1", tUploadLog := 2000
    permissionId := "p-1", tPerm := 2000, accessToken := "tok"
    shareLogId := "l-2", tShareLog := 2000 }

/-- The same run with the share one millisecond after the upload. -/
def nextMillisecond : Scenario :=
  { sameMillisecond with tPerm := 2001, tShareLog := 2001 }

/-! ## Sample data for the concrete instances -/

/-- A runtime for concrete runs: ASCII lower-casing, a `parseInt` that knows
decimal digits only, and a password check that accepts the hash `"h:" ++ p`
for the password `p`. -/
def sampleRuntime : Runtime :=
  { toLowerCase := asciiToLowerCase
    parseInt := fun s => match s.toNat? with
      | some n => .int n
      | none => .nan
    bcryptCompare := fun p h => h == "h:" ++ p }

/-- A user record for the concrete instances. -/
def alice : User :=
  ⟨"u-alice", "alice@x.com", "h:secret", "Alice", "A", 1000, "free"⟩

/-- A document of `alice`, stored under its id. -/
def aliceDoc : Document :=
  ⟨"d-1", "u-alice", "f1.pdf", "bank_2023.pdf", 10, "application/pdf", "uploads/f1.pdf",
    "banking", "bank_statement", none, "", 2000⟩

/-- The audit entry of the upload of `aliceDoc`. -/
def aliceDocUploaded : AuditLog :=
  ⟨"l-1", "d-1", some "u-alice", "upload", none, none, none, some "You", [], 2000⟩

/-- A database with one user, one document of hers and its upload entry. -/
def sampleDb : Db :=
  ⟨[("u-alice", alice)], [("d-1", aliceDoc)], [], [("l-1", aliceDocUploaded)]⟩

/-- The database `sampleDb` after `alice` has shared her document once. -/
def sharedDb : Db :=
  { sampleDb with
    permissions :=
      [("p-0", ⟨"p-0", "d-1", "u-alice", "cpa@x.com", "Pat", "cpa", none, true, 2500, "tok0"⟩)] }

/-- A complete share request. -/
def sampleShare : ShareRequest :=
  ⟨some "cpa@x.com", some "Pat", some "cpa", none, none, none⟩

/-- A complete registration body. -/
def aliceRegistration : RegisterBody :=
  ⟨some "alice@x.com", some "secret", some "Alice", some "A"⟩

/-- An upload request for the file `w2_2023.pdf` with no explicit category. -/
def w2Upload : UploadRequest :=
  ⟨some ⟨"w2_2023.pdf", "f-1.pdf", 42, "application/pdf", "uploads/f-1.pdf"⟩,
    none, none, none, none, none, none⟩

/-- Calls made between two registrations: another user registers, `alice`
logs in, uploads a file, shares it and reads its audit trail. -/
def sampleCalls : List Call :=
  [ .register ⟨some "bob@x.com", some "pw", some "Bob", some "B"⟩ "h:pw" "u-bob" 1100 "t-bob",
    .login ⟨some "alice@x.com", some "secret"⟩ "t-alice",
    .upload "u-alice" w2Upload "d-1" 1200 "l-1" 1201,
    .share "u-alice" "d-1" sampleShare "p-1" 1300 "tok" "l-2" 1301,
    .audit "u-alice" "d-1" ]

/-! ## Requests that overlap -/

/-- The server between two turns of the event loop: the database, and the
fields held by the registration handlers that wait for their password hash,
oldest first. -/
structure Server where
  db : Db
  waiting : List PendingRegistration
deriving DecidableEq, Repr

/-- The server at start-up. -/
def Server.start : Server := ⟨Db.empty, []⟩

/-- One turn of the event loop.  `call` is a request handled in one piece (for
a registration: its hash arrives before any other request is looked at);
`registerArrives` runs a registration up to its `await`; `hashReady i` resumes
the `i`-th waiting registration with the host values it then reads. -/
inductive Event where
  | call (c : Call)
  | registerArrives (body : RegisterBody)
  | hashReady (i : Nat) (passwordHash userId : String) (now : Nat) (token : String)
deriving DecidableEq, Repr

/-- The server after one turn, and the response sent in that turn if any. -/
def serve (rt : Runtime) (s : Server) : Event → Server × Option Response
  | .call c => (⟨(step rt s.db c).1, s.waiting⟩, some (step rt s.db c).2)
  | .registerArrives body =>
    match registerCheck s.db body with
    | .error response => (s, some response)
    | .ok pending => (⟨s.db, s.waiting ++ [pending]⟩, none)
  | .hashReady i passwordHash userId now token =>
    match s.waiting[i]? with
    | none => (s, none)
    | some pending =>
      (⟨(registerCommit s.db pending passwordHash userId now token).1, s.waiting.eraseIdx i⟩,
        some (registerCommit s.db pending passwordHash userId now token).2)

/-- The server after a sequence of turns. -/
def serveAll (rt : Runtime) (s : Server) : List Event → Server
  | [] => s
  | e :: es => serveAll rt (serve rt s e).1 es

/-- The responses of a sequence of turns. -/
def answers (rt : Runtime) (s : Server) : List Event → List (Option Response)
  | [] => []
  | e :: es => (serve rt s e).2 :: answers rt (serve rt s e).1 es

/-- The identifiers that `uuidv4()` hands out in the turn are not yet keys of the
maps they are stored in. -/
def Event.fresh (s : Server) : Event → Bool
  | .call c => c.fresh s.db
  | .registerArrives _ => true
  | .hashReady _ _ userId _ _ => !s.db.users.has userId

/-- Every turn of the sequence gets fresh identifiers in the state it runs
in. -/
def freshEvents (rt : Runtime) (s : Server) : List Event → Bool
  | [] => true
  | e :: es => e.fresh s && freshEvents rt (serve rt s e).1 es

/-- Two registrations of one email that overlap: both arrive before either
hash is ready. -/
def overlappingRegistrations : List Event :=
  [ .registerArrives ⟨some "alice@x.com", some "secret", some "Alice", some "A"⟩,
    .registerArrives ⟨some "alice@x.com", some "secret", some "Alice", some "A"⟩,
    .hashReady 0 "h:1" "u-1" 1000 "t-1",
    .hashReady 0 "h:2" "u-2" 1001 "t-2" ]

/-- Turns after a registration: other registrations that overlap each other,
a login and an upload. -/
def busyTurns : List Event :=
  [ .registerArrives ⟨some "bob@x.com", some "pw", some "Bob", some "B"⟩,
    .registerArrives ⟨some "carol@x.com", some "pw", some "Carol", some "C"⟩,
    .call (.login ⟨some "alice@x.com", some "secret"⟩ "t-alice"),
    .hashReady 1 "h:pw" "u-carol" 1100 "t-carol",
    .call (.upload "u-alice" w2Upload "d-1" 1200 "l-1" 1201),
    .hashReady 0 "h:pw" "u-bob" 1300 "t-bob" ]

/-- A share request whose `expiresAt` is the empty string. -/
def emptyExpiryShare : ShareRequest :=
  { sampleShare with expiresAt := some "" }

/-- Is the request field supplied: present and not the empty string?  These
are the values the guards `!x` and `x || y` of the handlers let through. -/
def supplied (x : Option String) : Prop :=
  ∃ s, x = some s ∧ s ≠ ""

/-- A share request that leaves out the role. -/
def shareWithoutRole : ShareRequest :=
  ⟨some "cpa@x.com", some "Pat", none, none, none, none⟩

/-- An upload of `w2_2023.pdf` whose form carries the fields `category` and
`subcategory` with empty values. -/
def emptyCategoryUpload : UploadRequest :=
  { w2Upload with category := some "", subcategory := some "" }

/-- An upload of `w2_2023.pdf` with the category chosen by the user and no
subcategory. -/
def bankingUpload : UploadRequest :=
  { w2Upload with category := some "banking" }

/-- Every permission names a stored document and was granted by the owner of
that document. -/
def Db.Granted (db : Db) : Prop :=
  ∀ p ∈ db.permissions.values,
    ∃ d, db.documents.get p.documentId = some d ∧ p.grantedBy = d.userId

/-- A whole session on the empty database: `alice` registers, then the calls
of `sampleCalls`. -/
def aliceSession : List Call :=
  .register aliceRegistration "h:secret" "u-alice" 1000 "t-0" :: sampleCalls

/-- The database `sampleDb` with another password hash for `alice`. -/
def rehashedDb : Db :=
  { sampleDb with users := [("u-alice", { alice with passwordHash := "h:other" })] }

/-- Two structural facts of the stored data: a document is stored under its
own id, and every permission names the key of a stored document. -/
def Db.Linked (db : Db) : Prop :=
  (∀ e ∈ db.documents, e.2.id = e.1) ∧
  (∀ p ∈ db.permissions.values, db.documents.has p.documentId = true)

/-! ## Categorizer: first match in the fixed order -/

/-- The substring test finds exactly the contiguous occurrences. -/
theorem includesChars_iff (hay needle : List Char) :
    includesChars hay needle = true ↔ needle <:+: hay := by
  induction hay with
  | nil => simp [includesChars]
  | cons c cs ih =>
    rw [includesChars, Bool.or_eq_true, ih, List.isPrefixOf_iff_prefix, List.infix_cons_iff]

/-- Claim C1.  For every filename `f` and every lower-casing function, with
`l` the lower-cased `f`, `categorizeDocument f` is the result of the first
rule of the specification's table that matches `l` (w2 / w-2, then 1040, then
1099, then paystub / payroll, then bank / statement, then mortgage / loan) and
`tax/other` when none matches; it is a total function, and
`"w2_paystub.pdf"` goes to `tax/w2`, not to `income/paystub`. -/
theorem categorizeDocument_first_matching_rule :
    (∀ (toLowerCase : String → String) (f : String),
      categorizeDocument toLowerCase f = firstMatchingRule categoryRules (toLowerCase f)) ∧
    categorizeDocument asciiToLowerCase "w2_paystub.pdf" = ⟨"tax", "w2"⟩ ∧
    categorizeDocument asciiToLowerCase "w2_paystub.pdf" ≠ ⟨"income", "paystub"⟩ := by
  refine ⟨?_, by decide, by decide⟩
  intro toLowerCase f
  simp only [categorizeDocument, firstMatchingRule, categoryRules, List.find?,
    CategoryRule.fires, List.any, Bool.or_false]
  generalize includes (toLowerCase f) "w2" = b1
  generalize includes (toLowerCase f) "w-2" = b2
  generalize includes (toLowerCase f) "1040" = b3
  generalize includes (toLowerCase f) "1099" = b4
  generalize includes (toLowerCase f) "paystub" = b5
  generalize includes (toLowerCase f) "payroll" = b6
  generalize includes (toLowerCase f) "bank" = b7
  generalize includes (toLowerCase f) "statement" = b8
  generalize includes (toLowerCase f) "mortgage" = b9
  generalize includes (toLowerCase f) "loan" = b10
  cases b1 <;> cases b2 <;> cases b3 <;> cases b4 <;> cases b5 <;> cases b6 <;> cases b7 <;>
    cases b8 <;> cases b9 <;> cases b10 <;> rfl

/-! ## The registration handler in one piece -/

/-- The registration handler when nothing runs during its `await`, written as
one expression. -/
theorem register_unfold (db : Db) (body : RegisterBody) (passwordHash userId : String)
    (now : Nat) (token : String) :
    register db body passwordHash userId now token =
      match truthy body.email, truthy body.password, truthy body.firstName,
        truthy body.lastName with
      | some email, some _, some firstName, some lastName =>
        if (db.users.values.find? (fun u => u.email == email)).isSome then
          (db, ⟨409, .error "User already exists"⟩)
        else
          (⟨db.users.set userId ⟨userId, email, passwordHash, firstName, lastName, now, "free"⟩,
              db.documents, db.permissions, db.auditLogs⟩,
            ⟨201, .auth (User.withoutPasswordHash
              ⟨userId, email, passwordHash, firstName, lastName, now, "free"⟩) token⟩)
      | _, _, _, _ => (db, ⟨400, .error "Missing required fields"⟩) := by
  simp only [register, registerCheck, registerCommit]
  cases truthy body.email <;> cases truthy body.password <;> cases truthy body.firstName <;>
    cases truthy body.lastName <;> try rfl
  rename_i email pw fn ln
  by_cases h : (db.users.values.find? (fun u => u.email == email)).isSome = true <;> simp [h]

/-! ## Ownership-scoped visibility -/

/-- Claim C2.  When no document is stored under `id`, or the document stored
there has another owner than the requester, the share handler and the audit
handler both answer 404 `Document not found`, the same response in both cases
and for every request body, and the database (permissions and audit log
included) is the one before the call. -/
theorem share_audit_not_found (db : Db) (userId id : String) (req : ShareRequest)
    (permissionId : String) (tPerm : Nat) (accessToken logId : String) (tLog : Nat)
    (h : ∀ d, db.documents.get id = some d → d.userId ≠ userId) :
    share db userId id req permissionId tPerm accessToken logId tLog
      = (db, ⟨404, .error "Document not found"⟩) ∧
    audit db userId id = (db, ⟨404, .error "Document not found"⟩) := by
  unfold share audit
  cases hget : db.documents.get id with
  | none => exact ⟨rfl, rfl⟩
  | some d =>
    have hne : d.userId ≠ userId := h d hget
    simp [hne]

/-- Instance of C2: `bob` asks for a document of `alice` and for a document
that does not exist. -/
theorem share_audit_not_found_witness :
    (share sampleDb "u-bob" "d-1" sampleShare "p-1" 3000 "tok" "l-2" 3001
        = (sampleDb, ⟨404, .error "Document not found"⟩) ∧
      audit sampleDb "u-bob" "d-1" = (sampleDb, ⟨404, .error "Document not found"⟩)) ∧
    (share sampleDb "u-bob" "d-404" sampleShare "p-1" 3000 "tok" "l-2" 3001
        = (sampleDb, ⟨404, .error "Document not found"⟩) ∧
      audit sampleDb "u-bob" "d-404" = (sampleDb, ⟨404, .error "Document not found"⟩)) :=
  ⟨share_audit_not_found sampleDb "u-bob" "d-1" sampleShare "p-1" 3000 "tok" "l-2" 3001
      (by intro d hd; simp [sampleDb, Store.get] at hd; subst hd; decide),
    share_audit_not_found sampleDb "u-bob" "d-404" sampleShare "p-1" 3000 "tok" "l-2" 3001
      (by intro d hd; simp [sampleDb, Store.get] at hd)⟩

/-! ## Store lemmas -/

theorem Store.set_of_not_has {V : Type} (m : Store V) (k : String) (v : V)
    (h : Store.has m k = false) : Store.set m k v = m ++ [(k, v)] := by
  simp [Store.set, h]

theorem Store.mem_set_self {V : Type} (m : Store V) (k : String) (v : V) :
    (k, v) ∈ Store.set m k v := by
  unfold Store.set
  split
  · rename_i h
    simp only [Store.has, List.any_eq_true, beq_iff_eq] at h
    obtain ⟨e, he, hk⟩ := h
    exact List.mem_map.mpr ⟨e, he, by simp [hk]⟩
  · simp

theorem Store.get_append_of_get {V : Type} (m added : Store V) (k : String) (v : V)
    (h : Store.get m k = some v) : Store.get (m ++ added) k = some v := by
  induction m with
  | nil => simp [Store.get] at h
  | cons e rest ih =>
    obtain ⟨k', v'⟩ := e
    simp only [Store.get, List.cons_append] at h ⊢
    split
    · simp_all
    · simp_all

theorem Store.has_eq_false_iff {V : Type} (m : Store V) (k : String) :
    Store.has m k = false ↔ ∀ e ∈ m, e.1 ≠ k := by
  simp [Store.has]

/-- With fresh identifiers a call only appends to the four maps. -/
theorem step_extends (rt : Runtime) (db : Db) (c : Call) (hf : c.fresh db = true) :
    (∃ a, (step rt db c).1.users = db.users ++ a) ∧
    (∃ a, (step rt db c).1.documents = db.documents ++ a) ∧
    (∃ a, (step rt db c).1.permissions = db.permissions ++ a) ∧
    (∃ a, (step rt db c).1.auditLogs = db.auditLogs ++ a) := by
  have nil : ∀ {V : Type} (m : Store V), ∃ a, m = m ++ a := fun m => ⟨[], by simp⟩
  cases c with
  | register body passwordHash userId now token =>
    simp only [Call.fresh, Bool.not_eq_true', ] at hf
    simp only [step, register_unfold]
    split
    · split
      · exact ⟨nil _, nil _, nil _, nil _⟩
      · exact ⟨⟨_, Store.set_of_not_has _ _ _ hf⟩, nil _, nil _, nil _⟩
    · exact ⟨nil _, nil _, nil _, nil _⟩
  | login body token =>
    simp only [step, login]
    repeat' split
    all_goals exact ⟨nil _, nil _, nil _, nil _⟩
  | upload userId req documentId tDoc logId tLog =>
    simp only [Call.fresh, Bool.and_eq_true, Bool.not_eq_true'] at hf
    simp only [step, upload]
    split
    · exact ⟨nil _, nil _, nil _, nil _⟩
    · exact ⟨nil _, ⟨_, Store.set_of_not_has _ _ _ hf.1⟩, nil _,
        ⟨_, Store.set_of_not_has _ _ _ hf.2⟩⟩
  | listDocuments userId => exact ⟨nil _, nil _, nil _, nil _⟩
  | share userId id req permissionId tPerm accessToken logId tLog =>
    simp only [Call.fresh, Bool.and_eq_true, Bool.not_eq_true'] at hf
    simp only [step, share]
    split
    · exact ⟨nil _, nil _, nil _, nil _⟩
    · split
      · exact ⟨nil _, nil _, nil _, nil _⟩
      · split
        · exact ⟨nil _, nil _, ⟨_, Store.set_of_not_has _ _ _ hf.1⟩,
            ⟨_, Store.set_of_not_has _ _ _ hf.2⟩⟩
        · exact ⟨nil _, nil _, nil _, nil _⟩
  | audit userId id =>
    simp only [step, audit]
    repeat' split
    all_goals exact ⟨nil _, nil _, nil _, nil _⟩
  | health now => exact ⟨nil _, nil _, nil _, nil _⟩

/-- With fresh identifiers a sequence of calls only appends to the four
maps. -/
theorem run_extends (rt : Runtime) (calls : List Call) (db : Db)
    (hf : freshRun rt db calls = true) :
    (∃ a, (run rt db calls).users = db.users ++ a) ∧
    (∃ a, (run rt db calls).documents = db.documents ++ a) ∧
    (∃ a, (run rt db calls).permissions = db.permissions ++ a) ∧
    (∃ a, (run rt db calls).auditLogs = db.auditLogs ++ a) := by
  induction calls generalizing db with
  | nil => exact ⟨⟨[], by simp [run]⟩, ⟨[], by simp [run]⟩, ⟨[], by simp [run]⟩,
      ⟨[], by simp [run]⟩⟩
  | cons c cs ih =>
    simp only [freshRun, Bool.and_eq_true] at hf
    obtain ⟨⟨a1, h1⟩, ⟨a2, h2⟩, ⟨a3, h3⟩, ⟨a4, h4⟩⟩ := step_extends rt db c hf.1
    obtain ⟨⟨b1, g1⟩, ⟨b2, g2⟩, ⟨b3, g3⟩, ⟨b4, g4⟩⟩ := ih (step rt db c).1 hf.2
    simp only [run]
    exact ⟨⟨a1 ++ b1, by rw [g1, h1, List.append_assoc]⟩,
      ⟨a2 ++ b2, by rw [g2, h2, List.append_assoc]⟩,
      ⟨a3 ++ b3, by rw [g3, h3, List.append_assoc]⟩,
      ⟨a4 ++ b4, by rw [g4, h4, List.append_assoc]⟩⟩

/-! ## Registration -/

theorem truthy_eq_some (x : Option String) (s : String) :
    truthy x = some s ↔ x = some s ∧ s ≠ "" := by
  cases x with
  | none => simp [truthy]
  | some t =>
    simp only [truthy]
    split
    · rename_i ht
      subst ht
      simp
      intro h1
      exact h1.symm
    · rename_i ht
      simp only [Option.some.injEq]
      constructor
      · intro h
        subst h
        exact ⟨rfl, ht⟩
      · exact fun h => h.1

/-- What a successful registration leaves behind: the database has a user
with the email of the request, and that email is not `""`. -/
theorem register_created (db : Db) (body : RegisterBody) (passwordHash userId : String)
    (now : Nat) (token : String)
    (h : (register db body passwordHash userId now token).2.status = 201) :
    ∃ e, body.email = some e ∧ e ≠ "" ∧
      ∃ u ∈ (register db body passwordHash userId now token).1.users.values, u.email = e := by
  simp only [register_unfold] at h ⊢
  split at h
  · rename_i email pw fn ln he _ _ _
    split at h
    · simp at h
    · rename_i hnone
      have hb := (truthy_eq_some _ _).mp he
      refine ⟨email, hb.1, hb.2, ?_⟩
      simp only [hnone]
      refine ⟨⟨userId, email, passwordHash, fn, ln, now, "free"⟩, ?_, rfl⟩
      simp only [Store.values]
      exact List.mem_map.mpr ⟨_, Store.mem_set_self _ _ _, rfl⟩
  · simp at h

/-- Registration with four non-empty fields answers 409 as soon as a stored
user has the email. -/
theorem register_conflict (db : Db) (body : RegisterBody) (passwordHash userId : String)
    (now : Nat) (token : String) (e : String)
    (he : body.email = some e) (hne : e ≠ "")
    (hpw : (truthy body.password).isSome = true)
    (hfn : (truthy body.firstName).isSome = true)
    (hln : (truthy body.lastName).isSome = true)
    (hex : ∃ u ∈ db.users.values, u.email = e) :
    register db body passwordHash userId now token
      = (db, ⟨409, .error "User already exists"⟩) := by
  obtain ⟨pw, hpw⟩ := Option.isSome_iff_exists.mp hpw
  obtain ⟨fn, hfn⟩ := Option.isSome_iff_exists.mp hfn
  obtain ⟨ln, hln⟩ := Option.isSome_iff_exists.mp hln
  have hem : truthy body.email = some e := by simp [he, truthy, hne]
  obtain ⟨u, hu, hue⟩ := hex
  have hfind : (db.users.values.find? (fun u => u.email == e)).isSome = true := by
    rw [List.find?_isSome]
    exact ⟨u, hu, by simp [hue]⟩
  simp [register_unfold, hem, hpw, hfn, hln, hfind]

/-- Replacing or appending an entry keeps the keys of a map pairwise
different. -/
theorem Store.set_keys_pairwise {V : Type} (m : Store V) (k : String) (v : V)
    (hk : m.Pairwise (fun a b => a.1 ≠ b.1)) :
    (Store.set m k v).Pairwise (fun a b => a.1 ≠ b.1) := by
  unfold Store.set
  split
  · rw [List.pairwise_map]
    refine hk.imp ?_
    intro a b hab
    by_cases ha : a.1 = k <;> by_cases hb : b.1 = k <;> simp_all
  · rename_i h
    have h' := (Store.has_eq_false_iff m k).mp (by simpa using h)
    rw [List.pairwise_append]
    refine ⟨hk, by simp, ?_⟩
    intro a ha b hb
    simp only [List.mem_singleton] at hb
    subst hb
    exact h' a ha

/-- A relation that holds between the values of a map with pairwise different
keys still holds after `set`, when the new value is related to every old
one. -/
theorem Store.set_values_pairwise {V : Type} (R : V → V → Prop) (m : Store V) (k : String)
    (v : V) (hk : m.Pairwise (fun a b => a.1 ≠ b.1)) (hR : m.Pairwise (fun a b => R a.2 b.2))
    (hl : ∀ e ∈ m, R e.2 v) (hr : ∀ e ∈ m, R v e.2) :
    (Store.set m k v).Pairwise (fun a b => R a.2 b.2) := by
  unfold Store.set
  split
  · rw [List.pairwise_map]
    refine (hk.and hR).imp_of_mem ?_
    intro a b ha hb hab
    by_cases hak : a.1 = k <;> by_cases hbk : b.1 = k
    · exact absurd (hak.trans hbk.symm) hab.1
    · simpa [hak, hbk] using hr b hb
    · simpa [hak, hbk] using hl a ha
    · simpa [hak, hbk] using hab.2
  · rw [List.pairwise_append]
    refine ⟨hR, by simp, ?_⟩
    intro a ha b hb
    simp only [List.mem_singleton] at hb
    subst hb
    exact hl a ha

/-- A call keeps the user keys pairwise different and the user emails
pairwise different, whatever identifiers it is given. -/
theorem step_users_distinct (rt : Runtime) (db : Db) (c : Call)
    (hk : db.users.Pairwise (fun a b => a.1 ≠ b.1))
    (he : db.users.Pairwise (fun a b => a.2.email ≠ b.2.email)) :
    (step rt db c).1.users.Pairwise (fun a b => a.1 ≠ b.1) ∧
    (step rt db c).1.users.Pairwise (fun a b => a.2.email ≠ b.2.email) := by
  cases c with
  | register body passwordHash userId now token =>
    simp only [step, register_unfold]
    split
    · rename_i email pw fn ln _ _ _ _
      split
      · exact ⟨hk, he⟩
      · rename_i hnone
        have hno : ∀ e ∈ db.users, e.2.email ≠ email := by
          intro e hmem heq
          apply hnone
          rw [List.find?_isSome]
          exact ⟨e.2, List.mem_map.mpr ⟨e, hmem, rfl⟩, by simp [heq]⟩
        refine ⟨Store.set_keys_pairwise _ _ _ hk, ?_⟩
        exact Store.set_values_pairwise (fun a b : User => a.email ≠ b.email) _ _ _ hk he
          (fun e hmem => hno e hmem) (fun e hmem => fun h => hno e hmem h.symm)
    · exact ⟨hk, he⟩
  | login body token =>
    simp only [step, login]
    repeat' split
    all_goals exact ⟨hk, he⟩
  | upload userId req documentId tDoc logId tLog =>
    simp only [step, upload, logAudit]
    split <;> exact ⟨hk, he⟩
  | listDocuments userId => exact ⟨hk, he⟩
  | share userId id req permissionId tPerm accessToken logId tLog =>
    simp only [step, share, logAudit]
    repeat' split
    all_goals exact ⟨hk, he⟩
  | audit userId id =>
    simp only [step, audit]
    repeat' split
    all_goals exact ⟨hk, he⟩
  | health now => exact ⟨hk, he⟩

/-- In every state reached from a state with pairwise different user keys and
emails, the user keys and emails are pairwise different. -/
theorem run_users_distinct (rt : Runtime) (calls : List Call) (db : Db)
    (hk : db.users.Pairwise (fun a b => a.1 ≠ b.1))
    (he : db.users.Pairwise (fun a b => a.2.email ≠ b.2.email)) :
    (run rt db calls).users.Pairwise (fun a b => a.1 ≠ b.1) ∧
    (run rt db calls).users.Pairwise (fun a b => a.2.email ≠ b.2.email) := by
  induction calls generalizing db with
  | nil => exact ⟨hk, he⟩
  | cons c cs ih =>
    have h := step_users_distinct rt db c hk he
    exact ih (step rt db c).1 h.1 h.2

/-- With fresh identifiers a turn only appends to the user map. -/
theorem serve_users_extends (rt : Runtime) (s : Server) (e : Event) (hf : e.fresh s = true) :
    ∃ a, (serve rt s e).1.db.users = s.db.users ++ a := by
  cases e with
  | call c => exact (step_extends rt s.db c hf).1
  | registerArrives body =>
    simp only [serve]
    split <;> exact ⟨[], by simp⟩
  | hashReady i passwordHash userId now token =>
    simp only [Event.fresh, Bool.not_eq_true'] at hf
    simp only [serve]
    split
    · exact ⟨[], by simp⟩
    · exact ⟨_, Store.set_of_not_has _ _ _ hf⟩

/-- With fresh identifiers a sequence of turns only appends to the user map. -/
theorem serveAll_users_extends (rt : Runtime) (events : List Event) (s : Server)
    (hf : freshEvents rt s events = true) :
    ∃ a, (serveAll rt s events).db.users = s.db.users ++ a := by
  induction events generalizing s with
  | nil => exact ⟨[], by simp [serveAll]⟩
  | cons e es ih =>
    simp only [freshEvents, Bool.and_eq_true] at hf
    obtain ⟨a, ha⟩ := serve_users_extends rt s e hf.1
    obtain ⟨b, hb⟩ := ih (serve rt s e).1 hf.2
    exact ⟨a ++ b, by simp only [serveAll]; rw [hb, ha, List.append_assoc]⟩

/-- A registration handled in one piece that answers 201 with a user object
leaves a user with that email in the database. -/
theorem register_stored (db : Db) (body : RegisterBody) (passwordHash userId : String)
    (now : Nat) (token : String) (ur : UserResponse) (tok : String)
    (h : (register db body passwordHash userId now token).2 = ⟨201, .auth ur tok⟩) :
    ∃ u ∈ (register db body passwordHash userId now token).1.users.values,
      u.email = ur.email := by
  simp only [register] at h ⊢
  cases hc : registerCheck db body with
  | error response =>
    simp only [hc] at h
    simp only [registerCheck] at hc
    repeat' split at hc
    all_goals simp at hc
    all_goals subst hc
    all_goals simp at h
  | ok pending =>
    simp only [hc, registerCommit] at h ⊢
    simp only [Response.mk.injEq, Body.auth.injEq, true_and] at h
    refine ⟨_, List.mem_map.mpr ⟨_, Store.mem_set_self _ _ _, rfl⟩, ?_⟩
    rw [← h.1]
    rfl

/-- A turn that answers 201 with a user object leaves a user with that email
in the database. -/
theorem serve_registered (rt : Runtime) (s : Server) (e : Event) (ur : UserResponse)
    (tok : String) (h : (serve rt s e).2 = some ⟨201, .auth ur tok⟩) :
    ∃ u ∈ (serve rt s e).1.db.users.values, u.email = ur.email := by
  cases e with
  | call c =>
    simp only [serve, Option.some.injEq] at h ⊢
    cases c with
    | register body passwordHash userId now token =>
      exact register_stored s.db body passwordHash userId now token ur tok h
    | login body token =>
      simp only [step, login] at h
      repeat' split at h
      all_goals simp at h
    | upload userId req documentId tDoc logId tLog =>
      simp only [step, upload, logAudit] at h
      repeat' split at h
      all_goals simp at h
    | listDocuments userId => simp [step, listDocuments] at h
    | share userId id req permissionId tPerm accessToken logId tLog =>
      simp only [step, share, logAudit] at h
      repeat' split at h
      all_goals simp at h
    | audit userId id =>
      simp only [step, audit] at h
      repeat' split at h
      all_goals simp at h
    | health now => simp [step, health] at h
  | registerArrives body =>
    simp only [serve] at h
    cases hc : registerCheck s.db body with
    | error response =>
      simp only [hc, Option.some.injEq] at h
      simp only [registerCheck] at hc
      repeat' split at hc
      all_goals simp at hc
      all_goals subst hc
      all_goals simp at h
    | ok pending => simp [hc] at h
  | hashReady i passwordHash userId now token =>
    simp only [serve] at h ⊢
    cases hw : s.waiting[i]? with
    | none => simp [hw] at h
    | some pending =>
      simp only [hw, registerCommit, Option.some.injEq, Response.mk.injEq, Body.auth.injEq,
        true_and] at h ⊢
      refine ⟨_, List.mem_map.mpr ⟨_, Store.mem_set_self _ _ _, rfl⟩, ?_⟩
      rw [← h.1]
      rfl

theorem eraseIdx_append_singleton {α : Type} (l : List α) (x : α) :
    (l ++ [x]).eraseIdx l.length = l := by
  induction l with
  | nil => rfl
  | cons y ys ih => simp only [List.cons_append, List.length_cons, List.eraseIdx_cons_succ, ih]

/-- A registration handled in one piece is the turn in which it arrives followed
by the turn in which its hash is ready. -/
theorem serve_register_in_two_turns (rt : Runtime) (s : Server) (body : RegisterBody)
    (passwordHash userId : String) (now : Nat) (token : String) :
    serveAll rt s [.registerArrives body,
        .hashReady s.waiting.length passwordHash userId now token]
      = (serve rt s (.call (.register body passwordHash userId now token))).1 := by
  simp only [serveAll, serve, step, register]
  cases hc : registerCheck s.db body with
  | error response => simp
  | ok pending => simp [eraseIdx_append_singleton]

/-- A registration with four non-empty fields is refused before its `await` as
soon as a stored user has the email. -/
theorem registerCheck_conflict (db : Db) (body : RegisterBody) (e : String)
    (he : body.email = some e) (hne : e ≠ "")
    (hpw : (truthy body.password).isSome = true)
    (hfn : (truthy body.firstName).isSome = true)
    (hln : (truthy body.lastName).isSome = true)
    (hex : ∃ u ∈ db.users.values, u.email = e) :
    registerCheck db body = .error ⟨409, .error "User already exists"⟩ := by
  obtain ⟨pw, hpw⟩ := Option.isSome_iff_exists.mp hpw
  obtain ⟨fn, hfn⟩ := Option.isSome_iff_exists.mp hfn
  obtain ⟨ln, hln⟩ := Option.isSome_iff_exists.mp hln
  have hem : truthy body.email = some e := by simp [he, truthy, hne]
  obtain ⟨u, hu, hue⟩ := hex
  have hfind : (db.users.values.find? (fun u => u.email == e)).isSome = true := by
    rw [List.find?_isSome]
    exact ⟨u, hu, by simp [hue]⟩
  simp [registerCheck, hem, hpw, hfn, hln, hfind]

/-- Claim C3, as the code has it.  After a registration with email `e` answered
201 and after any further requests (whose generated identifiers are fresh), a
registration that supplies four non-empty fields and the same email string
answers 409 `User already exists` and leaves the database as it is: this holds
for calls handled one after the other (first part) and also when the further
requests include registrations that wait for their hash while other requests
are handled (third part).  No state reached from the empty database by calls
handled one after the other holds two users with the same email (second
part). -/
theorem register_same_email_conflict :
    (∀ (rt : Runtime) (db : Db) (first : RegisterBody) (hash0 id0 : String) (now0 : Nat)
        (token0 : String) (calls : List Call) (again : RegisterBody) (hash1 id1 : String)
        (now1 : Nat) (token1 : String),
      (register db first hash0 id0 now0 token0).2.status = 201 →
      freshRun rt (register db first hash0 id0 now0 token0).1 calls = true →
      again.email = first.email →
      (truthy again.password).isSome = true →
      (truthy again.firstName).isSome = true →
      (truthy again.lastName).isSome = true →
      register (run rt (register db first hash0 id0 now0 token0).1 calls) again hash1 id1 now1
          token1
        = (run rt (register db first hash0 id0 now0 token0).1 calls,
            ⟨409, .error "User already exists"⟩)) ∧
    (∀ (rt : Runtime) (calls : List Call),
      ((run rt Db.empty calls).users.values.map User.email).Nodup) ∧
    (∀ (rt : Runtime) (s : Server) (first : Event) (ur : UserResponse) (tok : String)
        (events : List Event) (again : RegisterBody) (hash1 id1 : String) (now1 : Nat)
        (token1 : String),
      (serve rt s first).2 = some ⟨201, .auth ur tok⟩ →
      freshEvents rt (serve rt s first).1 events = true →
      again.email = some ur.email →
      ur.email ≠ "" →
      (truthy again.password).isSome = true →
      (truthy again.firstName).isSome = true →
      (truthy again.lastName).isSome = true →
      serve rt (serveAll rt (serve rt s first).1 events) (.registerArrives again)
        = (serveAll rt (serve rt s first).1 events,
            some ⟨409, .error "User already exists"⟩) ∧
      register (serveAll rt (serve rt s first).1 events).db again hash1 id1 now1 token1
        = ((serveAll rt (serve rt s first).1 events).db,
            ⟨409, .error "User already exists"⟩)) := by
  refine ⟨?_, ?_, ?_⟩
  · intro rt db first hash0 id0 now0 token0 calls again hash1 id1 now1 token1 h201 hfresh
      hemail hpw hfn hln
    obtain ⟨e, he, hne, u, hu, hue⟩ := register_created db first hash0 id0 now0 token0 h201
    obtain ⟨⟨a, ha⟩, _⟩ := run_extends rt calls _ hfresh
    refine register_conflict _ again hash1 id1 now1 token1 e (hemail.trans he) hne hpw hfn hln
      ⟨u, ?_, hue⟩
    rw [ha]
    simp only [Store.values, List.map_append, List.mem_append]
    exact Or.inl hu
  · intro rt calls
    have h := (run_users_distinct rt calls Db.empty List.Pairwise.nil List.Pairwise.nil).2
    simp only [Store.values, List.map_map]
    rw [List.Nodup, List.pairwise_map]
    exact h
  · intro rt s first ur tok events again hash1 id1 now1 token1 h201 hfresh hemail hne hpw hfn
      hln
    obtain ⟨u, hu, hue⟩ := serve_registered rt s first ur tok h201
    obtain ⟨a, ha⟩ := serveAll_users_extends rt events _ hfresh
    have hex : ∃ u ∈ (serveAll rt (serve rt s first).1 events).db.users.values,
        u.email = ur.email := by
      refine ⟨u, ?_, hue⟩
      rw [ha]
      simp only [Store.values, List.map_append, List.mem_append]
      exact Or.inl hu
    constructor
    · have hcheck := registerCheck_conflict _ again ur.email hemail hne hpw hfn hln hex
      generalize serveAll rt (serve rt s first).1 events = t at hcheck ⊢
      simp only [serve, hcheck]
    · exact register_conflict _ again hash1 id1 now1 token1 ur.email hemail hne hpw hfn hln hex

/-- Instance of C3: `alice` registers on the empty database and her second
registration is refused, after five calls handled one after the other, and
after six turns in which two other registrations overlap. -/
theorem register_same_email_conflict_witness :
    register (run sampleRuntime
        (register Db.empty aliceRegistration "h:secret" "u-alice" 1000 "t-0").1 sampleCalls)
        aliceRegistration "h:secret" "u-alice-2" 2000 "t-1"
      = (run sampleRuntime
          (register Db.empty aliceRegistration "h:secret" "u-alice" 1000 "t-0").1 sampleCalls,
          ⟨409, .error "User already exists"⟩) ∧
    (serve sampleRuntime
        (serveAll sampleRuntime (serve sampleRuntime Server.start
          (.call (.register aliceRegistration "h:secret" "u-alice" 1000 "t-0"))).1 busyTurns)
        (.registerArrives aliceRegistration)
      = (serveAll sampleRuntime (serve sampleRuntime Server.start
          (.call (.register aliceRegistration "h:secret" "u-alice" 1000 "t-0"))).1 busyTurns,
          some ⟨409, .error "User already exists"⟩) ∧
      register (serveAll sampleRuntime (serve sampleRuntime Server.start
          (.call (.register aliceRegistration "h:secret" "u-alice" 1000 "t-0"))).1 busyTurns).db
          aliceRegistration "h:secret" "u-alice-2" 2000 "t-1"
        = ((serveAll sampleRuntime (serve sampleRuntime Server.start
            (.call (.register aliceRegistration "h:secret" "u-alice" 1000 "t-0"))).1
            busyTurns).db,
          ⟨409, .error "User already exists"⟩)) :=
  ⟨register_same_email_conflict.1 sampleRuntime Db.empty aliceRegistration "h:secret" "u-alice"
      1000 "t-0" sampleCalls aliceRegistration "h:secret" "u-alice-2" 2000 "t-1"
      (by decide) (by decide) rfl (by decide) (by decide) (by decide),
    register_same_email_conflict.2.2 sampleRuntime Server.start
      (.call (.register aliceRegistration "h:secret" "u-alice" 1000 "t-0"))
      ⟨"u-alice", "alice@x.com", "Alice", "A", 1000, "free"⟩ "t-0" busyTurns aliceRegistration
      "h:secret" "u-alice-2" 2000 "t-1"
      (by decide) (by decide) rfl (by decide) (by decide) (by decide) (by decide)⟩

/-- Counterexample to C3 as stated: two registrations of one email both arrive
before either password hash is ready; both answer 201 and the user map then
holds two users with that email. -/
theorem overlapping_registrations_both_succeed :
    (answers sampleRuntime Server.start overlappingRegistrations).map
        (fun r => r.map (fun x => x.status))
      = [none, none, some 201, some 201] ∧
    (serveAll sampleRuntime Server.start overlappingRegistrations).db.users.values.map
        (fun u => u.email)
      = ["alice@x.com", "alice@x.com"] ∧
    ¬ ((serveAll sampleRuntime Server.start overlappingRegistrations).db.users.values.map
        User.email).Nodup := by
  decide

/-! ## Login -/

/-- Claim C4.  A login whose email belongs to a stored user but whose password
string fails the hash comparison, and a login whose email belongs to no stored
user (whatever its password), get the identical response 401
`Invalid credentials`, and neither changes the database. -/
theorem login_uniform_failure (rt : Runtime) (db : Db) (known unknown : LoginBody)
    (password : String) (t1 t2 : String)
    (_hknown : ∃ u ∈ db.users.values, some u.email = known.email)
    (hpw : known.password = some password)
    (hbad : ∀ u ∈ db.users.values, some u.email = known.email →
      rt.bcryptCompare password u.passwordHash = false)
    (hmiss : ∀ u ∈ db.users.values, some u.email ≠ unknown.email) :
    login rt db known t1 = (db, ⟨401, .error "Invalid credentials"⟩) ∧
    login rt db unknown t2 = (db, ⟨401, .error "Invalid credentials"⟩) ∧
    (login rt db known t1).2 = (login rt db unknown t2).2 := by
  have h1 : login rt db known t1 = (db, ⟨401, .error "Invalid credentials"⟩) := by
    unfold login
    cases hf : db.users.values.find? (fun u => some u.email == known.email) with
    | none =>
      rfl
    | some user =>
      have hmem := List.mem_of_find?_eq_some hf
      have hem : some user.email = known.email := by
        simpa using List.find?_some hf
      simp [hpw, hbad user hmem hem]
  have h2 : login rt db unknown t2 = (db, ⟨401, .error "Invalid credentials"⟩) := by
    unfold login
    have hf : db.users.values.find? (fun u => some u.email == unknown.email) = none := by
      rw [List.find?_eq_none]
      intro u hu
      simpa using hmiss u hu
    simp [hf]
  exact ⟨h1, h2, by rw [h1, h2]⟩

/-- Instance of C4 on `sampleDb`: a wrong password for `alice`, and an email
nobody registered. -/
theorem login_uniform_failure_witness :
    login sampleRuntime sampleDb ⟨some "alice@x.com", some "wrong"⟩ "t-1"
      = (sampleDb, ⟨401, .error "Invalid credentials"⟩) ∧
    login sampleRuntime sampleDb ⟨some "nobody@x.com", none⟩ "t-2"
      = (sampleDb, ⟨401, .error "Invalid credentials"⟩) ∧
    (login sampleRuntime sampleDb ⟨some "alice@x.com", some "wrong"⟩ "t-1").2
      = (login sampleRuntime sampleDb ⟨some "nobody@x.com", none⟩ "t-2").2 :=
  login_uniform_failure sampleRuntime sampleDb ⟨some "alice@x.com", some "wrong"⟩
    ⟨some "nobody@x.com", none⟩ "wrong" "t-1" "t-2"
    ⟨alice, by simp [sampleDb, Store.values], rfl⟩ rfl
    (by intro u hu _; simp [sampleDb, Store.values] at hu; subst hu; decide)
    (by intro u hu; simp [sampleDb, Store.values] at hu; subst hu; decide)

/-! ## Audit entries of the mutating calls -/

/-- Claim C5.  An upload that answers 201, and a share that answers 201, add
exactly one entry to the audit log when the generated log id is fresh: the log
afterwards is the log before followed by one entry, whose `documentId` is the
id of the uploaded (shared) document, whose `userId` is the requester and
whose `action` is `upload` (`share`, with metadata `sharedWith` and `role`). -/
theorem upload_share_one_audit_entry :
    (∀ (rt : Runtime) (db : Db) (userId : String) (req : UploadRequest) (documentId : String)
        (tDoc : Nat) (logId : String) (tLog : Nat),
      (upload rt db userId req documentId tDoc logId tLog).2.status = 201 →
      db.auditLogs.has logId = false →
      ∃ d e, (upload rt db userId req documentId tDoc logId tLog).2.body = .document d ∧
        (upload rt db userId req documentId tDoc logId tLog).1.auditLogs
          = db.auditLogs ++ [(logId, e)] ∧
        e.id = logId ∧ e.documentId = d.id ∧ e.userId = some userId ∧ e.action = "upload") ∧
    (∀ (db : Db) (userId id : String) (req : ShareRequest) (permissionId : String) (tPerm : Nat)
        (accessToken logId : String) (tLog : Nat),
      (share db userId id req permissionId tPerm accessToken logId tLog).2.status = 201 →
      db.auditLogs.has logId = false →
      ∃ doc p e, db.documents.get id = some doc ∧
        (share db userId id req permissionId tPerm accessToken logId tLog).2.body
          = .permission p ∧
        (share db userId id req permissionId tPerm accessToken logId tLog).1.auditLogs
          = db.auditLogs ++ [(logId, e)] ∧
        e.id = logId ∧ e.documentId = doc.id ∧ p.documentId = doc.id ∧
        e.userId = some userId ∧ e.action = "share" ∧
        e.metadata = [("sharedWith", p.grantedToEmail), ("role", p.role)] ∧
        some p.grantedToEmail = req.grantedToEmail ∧ some p.role = req.role) := by
  constructor
  · intro rt db userId req documentId tDoc logId tLog h201 hfresh
    simp only [upload, logAudit] at h201 ⊢
    split
    · rename_i hfile
      simp [hfile] at h201
    · refine ⟨_, _, rfl, Store.set_of_not_has _ _ _ hfresh, rfl, rfl, rfl, rfl⟩
  · intro db userId id req permissionId tPerm accessToken logId tLog h201 hfresh
    simp only [share, logAudit] at h201 ⊢
    cases hget : db.documents.get id with
    | none => simp [hget] at h201
    | some doc =>
      simp only [hget] at h201 ⊢
      by_cases hown : doc.userId = userId
      · simp only [hown, bne_self_eq_false, Bool.false_eq_true, ↓reduceIte] at h201 ⊢
        cases hge : truthy req.grantedToEmail with
        | none => simp [hge] at h201
        | some ge =>
          cases hgn : truthy req.grantedToName with
          | none => simp [hge, hgn] at h201
          | some gn =>
            cases hr : truthy req.role with
            | none => simp [hge, hgn, hr] at h201
            | some r =>
              refine ⟨doc, _, _, rfl, rfl, Store.set_of_not_has _ _ _ hfresh, rfl, rfl, rfl,
                rfl, rfl, rfl, ?_, ?_⟩
              · exact ((truthy_eq_some _ _).mp hge).1.symm
              · exact ((truthy_eq_some _ _).mp hr).1.symm
      · simp [hown] at h201

/-- Instance of C5 on `sampleDb`: `alice` uploads a second file and shares her
first one. -/
theorem upload_share_one_audit_entry_witness :
    (∃ d e, (upload sampleRuntime sampleDb "u-alice" w2Upload "d-2" 3000 "l-2" 3001).2.body
          = .document d ∧
        (upload sampleRuntime sampleDb "u-alice" w2Upload "d-2" 3000 "l-2" 3001).1.auditLogs
          = sampleDb.auditLogs ++ [("l-2", e)] ∧
        e.id = "l-2" ∧ e.documentId = d.id ∧ e.userId = some "u-alice" ∧ e.action = "upload") ∧
    (∃ doc p e, sampleDb.documents.get "d-1" = some doc ∧
        (share sampleDb "u-alice" "d-1" sampleShare "p-1" 3000 "tok" "l-2" 3001).2.body
          = .permission p ∧
        (share sampleDb "u-alice" "d-1" sampleShare "p-1" 3000 "tok" "l-2" 3001).1.auditLogs
          = sampleDb.auditLogs ++ [("l-2", e)] ∧
        e.id = "l-2" ∧ e.documentId = doc.id ∧ p.documentId = doc.id ∧
        e.userId = some "u-alice" ∧ e.action = "share" ∧
        e.metadata = [("sharedWith", p.grantedToEmail), ("role", p.role)] ∧
        some p.grantedToEmail = sampleShare.grantedToEmail ∧ some p.role = sampleShare.role) :=
  ⟨upload_share_one_audit_entry.1 sampleRuntime sampleDb "u-alice" w2Upload "d-2" 3000 "l-2" 3001
      (by decide) (by decide),
    upload_share_one_audit_entry.2 sampleDb "u-alice" "d-1" sampleShare "p-1" 3000 "tok" "l-2"
      3001 (by decide) (by decide)⟩

/-- Claim C6.  The audit log is append-only: for every database and every call
whose generated identifiers are fresh, the audit log after the call is the log
before followed by the new entries, so every entry present before is still
there, under the same id and with every field unchanged. -/
theorem audit_log_append_only (rt : Runtime) (db : Db) (c : Call)
    (hf : c.fresh db = true) :
    (∃ added, (step rt db c).1.auditLogs = db.auditLogs ++ added) ∧
    (∀ x ∈ db.auditLogs, x ∈ (step rt db c).1.auditLogs) ∧
    (∀ k e, db.auditLogs.get k = some e → (step rt db c).1.auditLogs.get k = some e) := by
  obtain ⟨a, ha⟩ := (step_extends rt db c hf).2.2.2
  refine ⟨⟨a, ha⟩, ?_, ?_⟩
  · intro x hx
    rw [ha]
    exact List.mem_append_left _ hx
  · intro k e hk
    rw [ha]
    exact Store.get_append_of_get _ _ _ _ hk

/-- Instance of C6 on `sampleDb`: a share of `alice` keeps the upload entry. -/
theorem audit_log_append_only_witness :
    (∃ added, (step sampleRuntime sampleDb
        (.share "u-alice" "d-1" sampleShare "p-1" 3000 "tok" "l-2" 3001)).1.auditLogs
        = sampleDb.auditLogs ++ added) ∧
    (∀ x ∈ sampleDb.auditLogs, x ∈ (step sampleRuntime sampleDb
        (.share "u-alice" "d-1" sampleShare "p-1" 3000 "tok" "l-2" 3001)).1.auditLogs) ∧
    (∀ k e, sampleDb.auditLogs.get k = some e → (step sampleRuntime sampleDb
        (.share "u-alice" "d-1" sampleShare "p-1" 3000 "tok" "l-2" 3001)).1.auditLogs.get k
        = some e) :=
  audit_log_append_only sampleRuntime sampleDb
    (.share "u-alice" "d-1" sampleShare "p-1" 3000 "tok" "l-2" 3001) (by decide)

/-! ## Sorting lemmas -/

theorem sortInsert_perm {α : Type} (cmp : α → α → Int) (x : α) (l : List α) :
    (sortInsert cmp x l).Perm (x :: l) := by
  induction l with
  | nil => exact List.Perm.refl _
  | cons y ys ih =>
    simp only [sortInsert]
    split
    · exact List.Perm.refl _
    · exact ((List.Perm.cons y ih).trans (List.Perm.swap x y ys))

theorem jsSort_perm {α : Type} (cmp : α → α → Int) (l : List α) : (jsSort cmp l).Perm l := by
  induction l with
  | nil => exact List.Perm.refl _
  | cons x xs ih =>
    simp only [jsSort]
    exact (sortInsert_perm cmp x _).trans (List.Perm.cons x ih)

/-- Inserting into a newest-first list gives a newest-first list. -/
theorem sortInsert_newestFirst {α : Type} (key : α → Nat) (x : α) (l : List α)
    (h : l.Pairwise (fun a b => key b ≤ key a)) :
    (sortInsert (fun a b => newestFirst (key a) (key b)) x l).Pairwise
      (fun a b => key b ≤ key a) := by
  induction l with
  | nil => simp [sortInsert]
  | cons y ys ih =>
    simp only [sortInsert]
    rw [List.pairwise_cons] at h
    split
    · rename_i hle
      have hyx : key y ≤ key x := by
        simp only [newestFirst] at hle
        omega
      rw [List.pairwise_cons]
      refine ⟨?_, List.pairwise_cons.mpr h⟩
      intro b hb
      rcases List.mem_cons.mp hb with rfl | hb
      · exact hyx
      · exact le_trans (h.1 b hb) hyx
    · rename_i hgt
      have hxy : key x ≤ key y := by
        simp only [newestFirst] at hgt
        omega
      rw [List.pairwise_cons]
      refine ⟨?_, ih h.2⟩
      intro b hb
      have hb' := (sortInsert_perm _ x ys).subset hb
      rcases List.mem_cons.mp hb' with rfl | hb'
      · exact hxy
      · exact h.1 b hb'

/-- The sort with the comparator of the handlers gives a list ordered by
`createdAt` non-increasing. -/
theorem jsSort_newestFirst {α : Type} (key : α → Nat) (l : List α) :
    (jsSort (fun a b => newestFirst (key a) (key b)) l).Pairwise
      (fun a b => key b ≤ key a) := by
  induction l with
  | nil => simp [jsSort]
  | cons x xs ih =>
    simp only [jsSort]
    exact sortInsert_newestFirst key x _ ih

/-! ## Listing and audit trail -/

/-- Claim C7.  For every database and requester `u`, `GET /api/documents`
answers 200 with exactly the documents whose `userId` is `u` (a rearrangement
of them: none missing, none of another user), ordered by `createdAt`
non-increasing, and the `sharedWith` of each is the list of the permissions
whose `documentId` is the id of that document and whose `isActive` is true;
the database is unchanged. -/
theorem listDocuments_owned_newest_first (db : Db) (userId : String) :
    ∃ entries, listDocuments db userId = (db, ⟨200, .documents entries⟩) ∧
      (entries.map (fun x => x.doc)).Perm
        (db.documents.values.filter (fun d => decide (d.userId = userId))) ∧
      entries.Pairwise (fun a b => b.doc.createdAt ≤ a.doc.createdAt) ∧
      (∀ x ∈ entries, ∀ p, p ∈ x.sharedWith ↔
        p ∈ db.permissions.values ∧ p.documentId = x.doc.id ∧ p.isActive = true) ∧
      (∀ x ∈ entries, x.sharedWith = db.permissions.values.filter
        (fun p => decide (p.documentId = x.doc.id ∧ p.isActive = true))) := by
  refine ⟨_, rfl, ?_, ?_, ?_, ?_⟩
  · rw [List.map_map]
    have hid : ((fun x : DocumentWithPermissions => x.doc) ∘ fun doc : Document =>
        (⟨doc, db.permissions.values.filter
          (fun perm => perm.documentId == doc.id && perm.isActive)⟩ :
          DocumentWithPermissions)) = id := rfl
    rw [hid, List.map_id]
    have hfil : (fun doc : Document => doc.userId == userId)
        = (fun d => decide (d.userId = userId)) := by
      funext d
      rw [Bool.eq_iff_iff]
      simp
    rw [hfil]
    exact jsSort_perm _ _
  · rw [List.pairwise_map]
    exact jsSort_newestFirst (fun d : Document => d.createdAt) _
  · intro x hx p
    obtain ⟨d, _, rfl⟩ := List.mem_map.mp hx
    simp [List.mem_filter]
  · intro x hx
    obtain ⟨d, _, rfl⟩ := List.mem_map.mp hx
    simp only
    congr 1
    funext p
    rw [Bool.eq_iff_iff]
    simp

/-- Claim C8.  When the requester owns the document stored under `id`,
`GET /api/documents/:id/audit` answers 200 with exactly the audit entries
whose `documentId` is that id (a rearrangement of them: every such entry and
no entry of another document), ordered by `createdAt` non-increasing. -/
theorem audit_entries_newest_first (db : Db) (userId id : String) (d : Document)
    (hget : db.documents.get id = some d) (hown : d.userId = userId) (hkey : d.id = id) :
    ∃ logs, audit db userId id = (db, ⟨200, .auditLogs logs⟩) ∧
      logs.Perm (db.auditLogs.values.filter (fun l => decide (l.documentId = id))) ∧
      logs.Pairwise (fun a b => b.createdAt ≤ a.createdAt) ∧
      (∀ l, l ∈ logs ↔ l ∈ db.auditLogs.values ∧ l.documentId = id) := by
  have hfil : (fun log : AuditLog => log.documentId == d.id)
      = (fun l => decide (l.documentId = id)) := by
    funext l
    rw [Bool.eq_iff_iff]
    simp [hkey]
  have haudit : audit db userId id = (db, ⟨200, .auditLogs
      (jsSort (fun a b => newestFirst a.createdAt b.createdAt)
        (db.auditLogs.values.filter (fun l => decide (l.documentId = id))))⟩) := by
    simp only [audit, hget, hown, bne_self_eq_false, Bool.false_eq_true, ↓reduceIte, hfil]
  refine ⟨_, haudit, jsSort_perm _ _, jsSort_newestFirst (fun l : AuditLog => l.createdAt) _, ?_⟩
  intro l
  rw [(jsSort_perm _ _).mem_iff]
  simp [List.mem_filter]

/-- Instance of C8 on `sampleDb`: `alice` reads the audit trail of her
document. -/
theorem audit_entries_newest_first_witness :
    ∃ logs, audit sampleDb "u-alice" "d-1" = (sampleDb, ⟨200, .auditLogs logs⟩) ∧
      logs.Perm (sampleDb.auditLogs.values.filter (fun l => decide (l.documentId = "d-1"))) ∧
      logs.Pairwise (fun a b => b.createdAt ≤ a.createdAt) ∧
      (∀ l, l ∈ logs ↔ l ∈ sampleDb.auditLogs.values ∧ l.documentId = "d-1") :=
  audit_entries_newest_first sampleDb "u-alice" "d-1" aliceDoc (by decide) (by decide)
    (by decide)

/-- An element in front of which the comparator allows `a` stays behind `a`
when `a` is inserted. -/
theorem sortInsert_before {α : Type} (cmp : α → α → Int) (a b : α) (l : List α)
    (hb : b ∈ l) (hab : cmp a b ≤ 0) : List.Sublist [a, b] (sortInsert cmp a l) := by
  induction l with
  | nil => simp at hb
  | cons y ys ih =>
    simp only [sortInsert]
    split
    · exact List.Sublist.cons₂ a (List.singleton_sublist.mpr hb)
    · rename_i hgt
      rcases List.mem_cons.mp hb with rfl | hb'
      · exact absurd hab hgt
      · exact List.Sublist.cons y (ih hb')

theorem sublist_sortInsert {α : Type} (cmp : α → α → Int) (x : α) (l : List α) :
    List.Sublist l (sortInsert cmp x l) := by
  induction l with
  | nil => simp
  | cons y ys ih =>
    simp only [sortInsert]
    split
    · exact List.Sublist.cons x (List.Sublist.refl _)
    · exact List.Sublist.cons₂ y ih

/-- Stability of the sort: when `a` stands before `b` and the comparator does
not ask for `b` first, `a` stands before `b` in the result. -/
theorem jsSort_stable {α : Type} (cmp : α → α → Int) (a b : α) (l : List α)
    (h : List.Sublist [a, b] l) (hab : cmp a b ≤ 0) : List.Sublist [a, b] (jsSort cmp l) := by
  induction l with
  | nil => simp at h
  | cons x xs ih =>
    simp only [jsSort]
    cases h with
    | cons _ h' => exact (ih h').trans (sublist_sortInsert cmp x _)
    | cons₂ _ h' =>
      have hb : b ∈ jsSort cmp xs :=
        (jsSort_perm cmp xs).mem_iff.mpr (List.singleton_sublist.mp h')
      exact sortInsert_before cmp a b _ hb hab

/-- In a list in which `R` holds from every element to the later ones, two
different members `a`, `b` with `R a b` false come in the order `b`, `a`. -/
theorem sublist_pair_of_pairwise {α : Type} (R : α → α → Prop) (a b : α) (l : List α)
    (h : l.Pairwise R) (ha : a ∈ l) (hb : b ∈ l) (hne : a ≠ b) (hab : ¬ R a b) :
    List.Sublist [b, a] l := by
  induction l with
  | nil => simp at ha
  | cons x xs ih =>
    rw [List.pairwise_cons] at h
    rcases List.mem_cons.mp hb with rfl | hb'
    · rcases List.mem_cons.mp ha with rfl | ha'
      · exact absurd rfl hne
      · exact List.Sublist.cons₂ _ (List.singleton_sublist.mpr ha')
    · rcases List.mem_cons.mp ha with rfl | ha'
      · exact absurd (h.1 b hb') hab
      · exact List.Sublist.cons x (ih h.2 ha' hb')

/-- What the audit handler answers to the owner of the document stored under
`id`. -/
theorem audit_of_owner (db : Db) (userId id : String) (d : Document)
    (hget : db.documents.get id = some d) (hown : d.userId = userId) :
    audit db userId id = (db, ⟨200, .auditLogs
      (jsSort (fun a b => newestFirst a.createdAt b.createdAt)
        (db.auditLogs.values.filter (fun log => log.documentId == d.id)))⟩) := by
  simp only [audit, hget, hown, bne_self_eq_false, Bool.false_eq_true, ↓reduceIte]

/-! ## The end-to-end scenario -/

theorem includes_w2_2023 : includes "w2_2023.pdf" "w2" = true := by decide

/-- Registration touches the user map only. -/
theorem register_keeps_documents (db : Db) (body : RegisterBody) (passwordHash userId : String)
    (now : Nat) (token : String) :
    (register db body passwordHash userId now token).1.documents = db.documents ∧
    (register db body passwordHash userId now token).1.permissions = db.permissions ∧
    (register db body passwordHash userId now token).1.auditLogs = db.auditLogs := by
  simp only [register_unfold]
  repeat' split
  all_goals exact ⟨rfl, rfl, rfl⟩

/-- Login never changes the database. -/
theorem login_keeps_db (rt : Runtime) (db : Db) (body : LoginBody) (token : String) :
    (login rt db body token).1 = db := by
  simp only [login]
  repeat' split
  all_goals rfl

/-- The last three calls of the scenario on a database without documents and
without audit entries. -/
theorem scenario_upload_share_audit (rt : Runtime) (s : Scenario) (db : Db)
    (hdocs : db.documents = []) (hlogs : db.auditLogs = [])
    (hlower : rt.toLowerCase "w2_2023.pdf" = "w2_2023.pdf")
    (hname : s.grantedToName ≠ "")
    (hids : s.shareLogId ≠ s.uploadLogId) :
    ∃ d p r,
      responses rt db (s.calls.drop 2) = [⟨201, .document d⟩, ⟨201, .permission p⟩, r] ∧
      d.category = "tax" ∧ d.subcategory = "w2" ∧ p.isActive = true ∧ r.status = 200 ∧
      r.actions = if s.tUploadLog < s.tShareLog then ["share", "upload"]
        else ["upload", "share"] := by
  have hcat : categorizeDocument rt.toLowerCase "w2_2023.pdf" = ⟨"tax", "w2"⟩ := by
    simp [categorizeDocument, hlower, includes_w2_2023]
  have hcpa : truthy (some "cpa@x.com") = some "cpa@x.com" := by decide
  have hrole : truthy (some "cpa") = some "cpa" := by decide
  have hgn : truthy (some s.grantedToName) = some s.grantedToName := by simp [truthy, hname]
  have hids' : s.uploadLogId ≠ s.shareLogId := fun h => hids h.symm
  obtain ⟨users, documents, permissions, auditLogs⟩ := db
  simp only at hdocs hlogs
  subst hdocs hlogs
  simp only [Scenario.calls, List.drop, responses, step, upload, logAudit, hcat, share, audit,
    Store.set, Store.has, Store.get, Store.values, List.any, hcpa, hrole, hgn]
  have hnone : truthy none = none := rfl
  simp only [hnone, Option.getD_none, bne_self_eq_false, Bool.false_eq_true, ↓reduceIte,
    beq_iff_eq, hids', Bool.or_false, decide_False, List.nil_append, List.cons_append,
    List.map_cons, List.map_nil, List.filter_cons, beq_self_eq_true, List.filter_nil, jsSort,
    sortInsert, newestFirst]
  simp only [Store.get, ↓reduceIte, bne_self_eq_false, Bool.false_eq_true, beq_self_eq_true,
    List.filter_cons, List.filter_nil, jsSort, sortInsert, newestFirst]
  refine ⟨_, _, _, rfl, rfl, rfl, rfl, rfl, ?_⟩
  simp only [Response.actions]
  by_cases h : s.tUploadLog < s.tShareLog
  · have hc : ¬ ((s.tShareLog : Int) - (s.tUploadLog : Int) ≤ 0) := by omega
    simp [h, hc]
  · have hc : (s.tShareLog : Int) - (s.tUploadLog : Int) ≤ 0 := by omega
    simp [h, hc]

/-- Claim C9, as the code has it.  In every run of the scenario on the empty
database (the lower-casing leaves `"w2_2023.pdf"` as it is, the grantee name
is not empty, the two log ids differ) the upload answers 201 with category
`tax` and subcategory `w2`, the share answers 201 with `isActive` true, and
the audit call answers 200 with exactly two entries, whose actions are
`share, upload` when the share entry has the strictly later `createdAt` and
`upload, share` otherwise (same millisecond included).  In general, of two
audit entries of one document the one with the strictly greater `createdAt`
comes first in the audit response, and of two entries with equal `createdAt`
the one appended first comes first. -/
theorem scenario_audit_order :
    (∀ (rt : Runtime) (s : Scenario),
      rt.toLowerCase "w2_2023.pdf" = "w2_2023.pdf" →
      s.grantedToName ≠ "" →
      s.shareLogId ≠ s.uploadLogId →
      ∃ r1 r2 d p r,
        responses rt Db.empty s.calls
          = [r1, r2, ⟨201, .document d⟩, ⟨201, .permission p⟩, r] ∧
        d.category = "tax" ∧ d.subcategory = "w2" ∧ p.isActive = true ∧ r.status = 200 ∧
        r.actions = if s.tUploadLog < s.tShareLog then ["share", "upload"]
          else ["upload", "share"]) ∧
    (∀ (db : Db) (userId id : String) (d : Document) (a b : AuditLog),
      db.documents.get id = some d → d.userId = userId →
      a ∈ db.auditLogs.values → b ∈ db.auditLogs.values →
      a.documentId = d.id → b.documentId = d.id →
      a.createdAt < b.createdAt →
      ∃ logs, audit db userId id = (db, ⟨200, .auditLogs logs⟩) ∧ List.Sublist [b, a] logs) ∧
    (∀ (db : Db) (userId id : String) (d : Document) (a b : AuditLog),
      db.documents.get id = some d → d.userId = userId →
      List.Sublist [a, b] db.auditLogs.values →
      a.documentId = d.id → b.documentId = d.id →
      a.createdAt = b.createdAt →
      ∃ logs, audit db userId id = (db, ⟨200, .auditLogs logs⟩) ∧ List.Sublist [a, b] logs) := by
  refine ⟨?_, ?_, ?_⟩
  · intro rt s hlower hname hids
    obtain ⟨d, p, r, h, hrest⟩ := scenario_upload_share_audit rt s
      (run rt Db.empty (s.calls.take 2))
      (by
        simp only [Scenario.calls, List.take, run, step, login_keeps_db]
        exact (register_keeps_documents _ _ _ _ _ _).1)
      (by
        simp only [Scenario.calls, List.take, run, step, login_keeps_db]
        exact (register_keeps_documents _ _ _ _ _ _).2.2)
      hlower hname hids
    refine ⟨(register Db.empty ⟨some s.email, some s.password, some s.firstName,
        some s.lastName⟩ s.passwordHash s.userId s.tUser s.registerToken).2,
      (login rt (register Db.empty ⟨some s.email, some s.password, some s.firstName,
        some s.lastName⟩ s.passwordHash s.userId s.tUser s.registerToken).1
        ⟨some s.email, some s.password⟩ s.loginToken).2, d, p, r, ?_, hrest⟩
    rw [← h]
    simp only [Scenario.calls, List.take, List.drop, run, responses, step, login_keeps_db]
  · intro db userId id d a b hget hown ha hb had hbd hlt
    refine ⟨_, audit_of_owner db userId id d hget hown, ?_⟩
    have hmem : ∀ x : AuditLog, x ∈ db.auditLogs.values → x.documentId = d.id →
        x ∈ jsSort (fun a b => newestFirst a.createdAt b.createdAt)
          (db.auditLogs.values.filter (fun log => log.documentId == d.id)) := by
      intro x hx hxd
      rw [(jsSort_perm _ _).mem_iff, List.mem_filter]
      exact ⟨hx, by simp [hxd]⟩
    refine sublist_pair_of_pairwise (fun x y : AuditLog => y.createdAt ≤ x.createdAt) a b _
      (jsSort_newestFirst (fun l : AuditLog => l.createdAt) _) (hmem a ha had) (hmem b hb hbd)
      ?_ (by omega)
    intro hab
    rw [hab] at hlt
    exact lt_irrefl _ hlt
  · intro db userId id d a b hget hown hsub had hbd heq
    refine ⟨_, audit_of_owner db userId id d hget hown, ?_⟩
    apply jsSort_stable
    · have hf := hsub.filter (fun log : AuditLog => log.documentId == d.id)
      simpa [List.filter_cons, had, hbd] using hf
    · simp only [newestFirst, heq]
      omega

/-- Instance of C9: the run in which the share comes one millisecond after the
upload. -/
theorem scenario_audit_order_witness :
    ∃ r1 r2 d p r,
      responses sampleRuntime Db.empty nextMillisecond.calls
        = [r1, r2, ⟨201, .document d⟩, ⟨201, .permission p⟩, r] ∧
      d.category = "tax" ∧ d.subcategory = "w2" ∧ p.isActive = true ∧ r.status = 200 ∧
      r.actions = if nextMillisecond.tUploadLog < nextMillisecond.tShareLog
        then ["share", "upload"] else ["upload", "share"] :=
  scenario_audit_order.1 sampleRuntime nextMillisecond (by decide) (by decide) (by decide)

/-- Counterexample to C9 as stated: with both audit entries created in the
same millisecond the scenario's audit response lists `upload` before
`share`. -/
theorem scenario_same_millisecond :
    (responses sampleRuntime Db.empty sameMillisecond.calls).map Response.actions
        = [[], [], [], [], ["upload", "share"]] ∧
    (responses sampleRuntime Db.empty sameMillisecond.calls).map Response.actions
        ≠ [[], [], [], [], ["share", "upload"]] := by
  constructor <;> decide

/-! ## Listing after an upload and a share -/

theorem Store.get_append_fresh {V : Type} (m : Store V) (k : String) (v : V)
    (h : Store.has m k = false) : Store.get (m ++ [(k, v)]) k = some v := by
  induction m with
  | nil => simp [Store.get]
  | cons e rest ih =>
    obtain ⟨k', v'⟩ := e
    simp only [Store.has, List.any_cons, Bool.or_eq_false_iff, beq_eq_false_iff_ne, ne_eq] at h
    simp only [List.cons_append, Store.get, h.1, ↓reduceIte]
    exact ih (by simpa [Store.has] using h.2)

/-- What a successful upload returns and stores. -/
theorem upload_created (rt : Runtime) (db : Db) (userId : String) (req : UploadRequest)
    (documentId : String) (tDoc : Nat) (logId : String) (tLog : Nat)
    (h : (upload rt db userId req documentId tDoc logId tLog).2.status = 201) :
    ∃ d, d.id = documentId ∧ d.userId = userId ∧
      (upload rt db userId req documentId tDoc logId tLog).2 = ⟨201, .document d⟩ ∧
      (upload rt db userId req documentId tDoc logId tLog).1.users = db.users ∧
      (upload rt db userId req documentId tDoc logId tLog).1.documents
        = db.documents.set documentId d ∧
      (upload rt db userId req documentId tDoc logId tLog).1.permissions = db.permissions := by
  simp only [upload, logAudit] at h ⊢
  cases hfile : req.file with
  | none => simp [hfile] at h
  | some file => exact ⟨_, rfl, rfl, rfl, rfl, rfl, rfl⟩

/-- What a successful share returns and stores. -/
theorem share_created (db : Db) (userId id : String) (req : ShareRequest)
    (permissionId : String) (tPerm : Nat) (accessToken logId : String) (tLog : Nat)
    (h : (share db userId id req permissionId tPerm accessToken logId tLog).2.status = 201) :
    ∃ doc p, db.documents.get id = some doc ∧ doc.userId = userId ∧
      (share db userId id req permissionId tPerm accessToken logId tLog).2
        = ⟨201, .permission p⟩ ∧
      p.id = permissionId ∧ p.documentId = doc.id ∧ p.grantedBy = userId ∧
      p.isActive = true ∧
      some p.grantedToEmail = req.grantedToEmail ∧
      some p.grantedToName = req.grantedToName ∧
      some p.role = req.role ∧
      p.expiresAt = truthy req.expiresAt ∧
      (share db userId id req permissionId tPerm accessToken logId tLog).1.users = db.users ∧
      (share db userId id req permissionId tPerm accessToken logId tLog).1.documents
        = db.documents ∧
      (share db userId id req permissionId tPerm accessToken logId tLog).1.permissions
        = db.permissions.set permissionId p := by
  simp only [share, logAudit] at h ⊢
  cases hget : db.documents.get id with
  | none => simp [hget] at h
  | some doc =>
    simp only [hget] at h ⊢
    by_cases hown : doc.userId = userId
    · simp only [hown, bne_self_eq_false, Bool.false_eq_true, ↓reduceIte] at h ⊢
      cases hge : truthy req.grantedToEmail with
      | none => simp [hge] at h
      | some ge =>
        cases hgn : truthy req.grantedToName with
        | none => simp [hge, hgn] at h
        | some gn =>
          cases hr : truthy req.role with
          | none => simp [hge, hgn, hr] at h
          | some r =>
            exact ⟨doc, _, rfl, hown, rfl, rfl, rfl, rfl, rfl,
              ((truthy_eq_some _ _).mp hge).1.symm, ((truthy_eq_some _ _).mp hgn).1.symm,
              ((truthy_eq_some _ _).mp hr).1.symm, rfl, rfl, rfl, rfl⟩
    · simp [hown] at h

/-- The listing handler in one expression. -/
theorem listDocuments_eq (db : Db) (userId : String) :
    listDocuments db userId = (db, ⟨200, .documents
      ((jsSort (fun a b => newestFirst a.createdAt b.createdAt)
          (db.documents.values.filter (fun doc => doc.userId == userId))).map
        (fun doc => (⟨doc, db.permissions.values.filter
          (fun perm => perm.documentId == doc.id && perm.isActive)⟩ :
          DocumentWithPermissions)))⟩) := rfl

/-- Claim C10, as the code has it.  After an upload by `u` that answers 201
(fresh document id, on a database whose permissions all refer to stored
documents), the listing of `u` is the previous listing plus exactly one entry,
the uploaded document with an empty `sharedWith`.  After one share of that
document by `u` that answers 201 (fresh permission id), the entry of the
document has a `sharedWith` of length 1 whose element is the returned
permission: `isActive` true, the grantee email, name and role of the request,
and `expiresAt` equal to the supplied value when that value is not the empty
string, and null when none was supplied or the supplied value is the empty
string. -/
theorem listing_after_upload_share :
    (∀ (rt : Runtime) (db : Db) (u : String) (req : UploadRequest) (documentId : String)
        (tDoc : Nat) (logId : String) (tLog : Nat),
      (upload rt db u req documentId tDoc logId tLog).2.status = 201 →
      db.documents.has documentId = false →
      (∀ p ∈ db.permissions.values, db.documents.has p.documentId = true) →
      ∃ d before after,
        (upload rt db u req documentId tDoc logId tLog).2.body = .document d ∧
        d.id = documentId ∧
        listDocuments db u = (db, ⟨200, .documents before⟩) ∧
        listDocuments (upload rt db u req documentId tDoc logId tLog).1 u
          = ((upload rt db u req documentId tDoc logId tLog).1, ⟨200, .documents after⟩) ∧
        after.Perm (⟨d, []⟩ :: before)) ∧
    (∀ (rt : Runtime) (db : Db) (u : String) (req : UploadRequest) (documentId : String)
        (tDoc : Nat) (logId : String) (tLog : Nat) (sreq : ShareRequest) (permissionId : String)
        (tPerm : Nat) (accessToken logId2 : String) (tLog2 : Nat),
      (upload rt db u req documentId tDoc logId tLog).2.status = 201 →
      db.documents.has documentId = false →
      (∀ p ∈ db.permissions.values, db.documents.has p.documentId = true) →
      db.permissions.has permissionId = false →
      (share (upload rt db u req documentId tDoc logId tLog).1 u documentId sreq permissionId
        tPerm accessToken logId2 tLog2).2.status = 201 →
      ∃ d p entries,
        (upload rt db u req documentId tDoc logId tLog).2.body = .document d ∧
        (share (upload rt db u req documentId tDoc logId tLog).1 u documentId sreq permissionId
          tPerm accessToken logId2 tLog2).2.body = .permission p ∧
        (listDocuments (share (upload rt db u req documentId tDoc logId tLog).1 u documentId sreq
          permissionId tPerm accessToken logId2 tLog2).1 u).2 = ⟨200, .documents entries⟩ ∧
        ⟨d, [p]⟩ ∈ entries ∧
        (∀ x ∈ entries, x.doc.id = documentId → x.sharedWith = [p]) ∧
        p.isActive = true ∧
        some p.grantedToEmail = sreq.grantedToEmail ∧
        some p.grantedToName = sreq.grantedToName ∧
        some p.role = sreq.role ∧
        (∀ v, sreq.expiresAt = some v → v ≠ "" → p.expiresAt = some v) ∧
        (sreq.expiresAt = none → p.expiresAt = none) ∧
        (sreq.expiresAt = some "" → p.expiresAt = none)) := by
  have hnoref : ∀ (db : Db) (documentId : String), db.documents.has documentId = false →
      (∀ p ∈ db.permissions.values, db.documents.has p.documentId = true) →
      ∀ p ∈ db.permissions.values, ¬ (p.documentId = documentId) := by
    intro db documentId hfresh hri p hp heq
    have := hri p hp
    rw [heq, hfresh] at this
    exact Bool.noConfusion this
  constructor
  · intro rt db u req documentId tDoc logId tLog h201 hfresh hri
    obtain ⟨d, hid, hu, hresp, _, hdocs, hperms⟩ :=
      upload_created rt db u req documentId tDoc logId tLog h201
    refine ⟨d, _, _, by rw [hresp], hid, listDocuments_eq db u, listDocuments_eq _ u, ?_⟩
    rw [hdocs, hperms, Store.set_of_not_has _ _ _ hfresh]
    have hval : Store.values (db.documents ++ [(documentId, d)]) = db.documents.values ++ [d] := by
      simp [Store.values]
    have hfil : (db.documents.values ++ [d]).filter (fun doc => doc.userId == u)
        = db.documents.values.filter (fun doc => doc.userId == u) ++ [d] := by
      simp [List.filter_append, List.filter_cons, hu]
    rw [hval, hfil]
    have hshared : db.permissions.values.filter
        (fun perm => perm.documentId == d.id && perm.isActive) = [] := by
      rw [List.filter_eq_nil_iff]
      intro p hp
      have := hnoref db documentId hfresh hri p hp
      simp [hid, this]
    have hperm := ((jsSort_perm (fun a b : Document => newestFirst a.createdAt b.createdAt)
      (db.documents.values.filter (fun doc => doc.userId == u) ++ [d])).trans
      ((List.perm_append_singleton d _).trans
        ((jsSort_perm (fun a b : Document => newestFirst a.createdAt b.createdAt)
          (db.documents.values.filter (fun doc => doc.userId == u))).symm.cons d))).map
      (fun doc => (⟨doc, db.permissions.values.filter
        (fun perm => perm.documentId == doc.id && perm.isActive)⟩ : DocumentWithPermissions))
    simpa only [List.map_cons, hshared] using hperm
  · intro rt db u req documentId tDoc logId tLog sreq permissionId tPerm accessToken logId2 tLog2
      h201 hfresh hri hpfresh hs201
    obtain ⟨d, hid, hu, hresp, _, hdocs, hperms⟩ :=
      upload_created rt db u req documentId tDoc logId tLog h201
    obtain ⟨doc, p, hget, _, hsresp, _, hpd, _, hact, hge, hgn, hr, hex, _, hsdocs, hsperms⟩ :=
      share_created _ u documentId sreq permissionId tPerm accessToken logId2 tLog2 hs201
    rw [hdocs, Store.set_of_not_has _ _ _ hfresh, Store.get_append_fresh _ _ _ hfresh] at hget
    have hdoc : doc = d := (Option.some.inj hget).symm
    subst hdoc
    rw [hid] at hpd
    have hshared : ∀ x : Document, x.id = documentId →
        (db.permissions.values ++ [p]).filter
          (fun perm => perm.documentId == x.id && perm.isActive) = [p] := by
      intro x hx
      have hold : db.permissions.values.filter
          (fun perm => perm.documentId == x.id && perm.isActive) = [] := by
        rw [List.filter_eq_nil_iff]
        intro q hq
        have := hnoref db documentId hfresh hri q hq
        simp [hx, this]
      rw [List.filter_append, hold]
      simp [List.filter_cons, hpd, hx, hact]
    have hpv : Store.values (db.permissions ++ [(permissionId, p)])
        = db.permissions.values ++ [p] := by
      simp [Store.values]
    refine ⟨doc, p, _, by rw [hresp], by rw [hsresp], by rw [listDocuments_eq], ?_, ?_, hact,
      hge, hgn, hr, ?_, ?_, ?_⟩
    · rw [hsdocs, hsperms, hperms, Store.set_of_not_has _ _ _ hpfresh, hpv]
      refine List.mem_map.mpr ⟨doc, ?_, by rw [hshared doc hid]⟩
      rw [(jsSort_perm _ _).mem_iff, List.mem_filter, hdocs,
        Store.set_of_not_has _ _ _ hfresh]
      exact ⟨by simp [Store.values], by simp [hu]⟩
    · intro x hx hxid
      rw [hsperms, hperms, Store.set_of_not_has _ _ _ hpfresh, hpv] at hx
      obtain ⟨y, _, rfl⟩ := List.mem_map.mp hx
      exact hshared y hxid
    · intro v hv hne
      rw [hex, hv]
      simp [truthy, hne]
    · intro hv
      rw [hex, hv]
      rfl
    · intro hv
      rw [hex, hv]
      rfl

/-- Instance of C10 on `sharedDb`: `alice` uploads `w2_2023.pdf` and shares it
once. -/
theorem listing_after_upload_share_witness :
    (∃ d before after,
        (upload sampleRuntime sharedDb "u-alice" w2Upload "d-2" 3000 "l-2" 3001).2.body
          = .document d ∧
        d.id = "d-2" ∧
        listDocuments sharedDb "u-alice" = (sharedDb, ⟨200, .documents before⟩) ∧
        listDocuments (upload sampleRuntime sharedDb "u-alice" w2Upload "d-2" 3000 "l-2" 3001).1
            "u-alice"
          = ((upload sampleRuntime sharedDb "u-alice" w2Upload "d-2" 3000 "l-2" 3001).1,
              ⟨200, .documents after⟩) ∧
        after.Perm (⟨d, []⟩ :: before)) ∧
    (∃ d p entries,
        (upload sampleRuntime sharedDb "u-alice" w2Upload "d-2" 3000 "l-2" 3001).2.body
          = .document d ∧
        (share (upload sampleRuntime sharedDb "u-alice" w2Upload "d-2" 3000 "l-2" 3001).1
          "u-alice" "d-2" sampleShare "p-1" 4000 "tok" "l-3" 4001).2.body = .permission p ∧
        (listDocuments (share
          (upload sampleRuntime sharedDb "u-alice" w2Upload "d-2" 3000 "l-2" 3001).1
          "u-alice" "d-2" sampleShare "p-1" 4000 "tok" "l-3" 4001).1 "u-alice").2
          = ⟨200, .documents entries⟩ ∧
        ⟨d, [p]⟩ ∈ entries ∧
        (∀ x ∈ entries, x.doc.id = "d-2" → x.sharedWith = [p]) ∧
        p.isActive = true ∧
        some p.grantedToEmail = sampleShare.grantedToEmail ∧
        some p.grantedToName = sampleShare.grantedToName ∧
        some p.role = sampleShare.role ∧
        (∀ v, sampleShare.expiresAt = some v → v ≠ "" → p.expiresAt = some v) ∧
        (sampleShare.expiresAt = none → p.expiresAt = none) ∧
        (sampleShare.expiresAt = some "" → p.expiresAt = none)) :=
  ⟨listing_after_upload_share.1 sampleRuntime sharedDb "u-alice" w2Upload "d-2" 3000 "l-2" 3001
      (by decide) (by decide) (by decide),
    listing_after_upload_share.2 sampleRuntime sharedDb "u-alice" w2Upload "d-2" 3000 "l-2" 3001
      sampleShare "p-1" 4000 "tok" "l-3" 4001 (by decide) (by decide) (by decide) (by decide)
      (by decide)⟩

/-- Counterexample to C10 as stated: the share request supplies `expiresAt`
with the value `""`, and the permission returned, and listed in `sharedWith`
of the document, has `expiresAt` null, not the supplied value. -/
theorem share_empty_expiry_stored_null :
    emptyExpiryShare.expiresAt = some "" ∧
    (share (upload sampleRuntime sharedDb "u-alice" w2Upload "d-2" 3000 "l-2" 3001).1
        "u-alice" "d-2" emptyExpiryShare "p-1" 4000 "tok" "l-3" 4001).2
      = ⟨201, .permission
          ⟨"p-1", "d-2", "u-alice", "cpa@x.com", "Pat", "cpa", none, true, 4000, "tok"⟩⟩ ∧
    (listDocuments (share (upload sampleRuntime sharedDb "u-alice" w2Upload "d-2" 3000 "l-2"
        3001).1 "u-alice" "d-2" emptyExpiryShare "p-1" 4000 "tok" "l-3" 4001).1 "u-alice").2
      = ⟨200, .documents
          [ ⟨⟨"d-2", "u-alice", "f-1.pdf", "w2_2023.pdf", 42, "application/pdf",
                "uploads/f-1.pdf", "tax", "w2", none, "", 3000⟩,
              [⟨"p-1", "d-2", "u-alice", "cpa@x.com", "Pat", "cpa", none, true, 4000, "tok"⟩]⟩,
            ⟨aliceDoc, sharedDb.permissions.values⟩ ]⟩ := by
  decide

/-! ## Structure of the reachable states -/

theorem Store.mem_of_mem_set {V : Type} (m : Store V) (k : String) (v : V) (x : String × V)
    (h : x ∈ Store.set m k v) : x ∈ m ∨ x = (k, v) := by
  unfold Store.set at h
  split at h
  · obtain ⟨e, he, hx⟩ := List.mem_map.mp h
    by_cases hk : e.1 = k
    · simp only [hk, ↓reduceIte] at hx
      exact Or.inr hx.symm
    · simp only [hk, ↓reduceIte] at hx
      exact Or.inl (hx ▸ he)
  · rcases List.mem_append.mp h with h | h
    · exact Or.inl h
    · exact Or.inr (List.mem_singleton.mp h)

theorem Store.has_set_of_has {V : Type} (m : Store V) (k k' : String) (v : V)
    (h : Store.has m k' = true) : Store.has (Store.set m k v) k' = true := by
  unfold Store.set
  split
  · simp only [Store.has, List.any_eq_true, beq_iff_eq] at h ⊢
    obtain ⟨e, he, hk⟩ := h
    by_cases hek : e.1 = k
    · exact ⟨(k, v), List.mem_map.mpr ⟨e, he, by simp [hek]⟩, by rw [← hk, hek]⟩
    · exact ⟨e, List.mem_map.mpr ⟨e, he, by simp [hek]⟩, hk⟩
  · simp only [Store.has, List.any_append, Bool.or_eq_true] at h ⊢
    exact Or.inl h

theorem Store.has_set_self {V : Type} (m : Store V) (k : String) (v : V) :
    Store.has (Store.set m k v) k = true := by
  simp only [Store.has, List.any_eq_true, beq_iff_eq]
  exact ⟨(k, v), Store.mem_set_self m k v, rfl⟩

theorem Store.mem_of_get {V : Type} (m : Store V) (k : String) (v : V)
    (h : Store.get m k = some v) : (k, v) ∈ m := by
  induction m with
  | nil => simp [Store.get] at h
  | cons e rest ih =>
    obtain ⟨k', v'⟩ := e
    simp only [Store.get] at h
    split at h
    · rename_i hk
      simp only [Option.some.injEq] at h
      subst hk h
      exact List.mem_cons_self _ _
    · exact List.mem_cons_of_mem _ (ih h)

theorem Store.has_of_mem {V : Type} (m : Store V) (k : String) (v : V) (h : (k, v) ∈ m) :
    Store.has m k = true := by
  simp only [Store.has, List.any_eq_true, beq_iff_eq]
  exact ⟨(k, v), h, rfl⟩

/-- Every call keeps the stored data linked, whatever identifiers it is
given. -/
theorem step_linked (rt : Runtime) (db : Db) (c : Call) (h : db.Linked) :
    (step rt db c).1.Linked := by
  cases c with
  | register body passwordHash userId now token =>
    have hk := register_keeps_documents db body passwordHash userId now token
    simp only [step, Db.Linked, hk.1, hk.2.1]
    exact h
  | login body token =>
    simp only [step, login_keeps_db]
    exact h
  | upload userId req documentId tDoc logId tLog =>
    simp only [step, upload, logAudit]
    split
    · exact h
    · constructor
      · intro e he
        rcases Store.mem_of_mem_set _ _ _ _ he with he | he
        · exact h.1 e he
        · rw [he]
      · intro p hp
        exact Store.has_set_of_has _ _ _ _ (h.2 p hp)
  | listDocuments userId => exact h
  | share userId id req permissionId tPerm accessToken logId tLog =>
    simp only [step, share, logAudit]
    split
    · exact h
    · rename_i doc hget
      split
      · exact h
      · split
        · refine ⟨h.1, ?_⟩
          intro p hp
          simp only [Store.values] at hp
          obtain ⟨e, he, rfl⟩ := List.mem_map.mp hp
          rcases Store.mem_of_mem_set _ _ _ _ he with he | he
          · exact h.2 e.2 (List.mem_map.mpr ⟨e, he, rfl⟩)
          · rw [he]
            have hmem := Store.mem_of_get _ _ _ hget
            have hid := h.1 _ hmem
            simp only at hid ⊢
            rw [hid]
            exact Store.has_of_mem _ _ _ hmem
        · exact h
  | audit userId id =>
    simp only [step, audit]
    repeat' split
    all_goals exact h
  | health now => exact h

/-- Every state reached from the empty database is linked: documents are stored
under their own id and permissions name stored documents. -/
theorem run_linked (rt : Runtime) (calls : List Call) (db : Db) (h : db.Linked) :
    (run rt db calls).Linked := by
  induction calls generalizing db with
  | nil => exact h
  | cons c cs ih => exact ih _ (step_linked rt db c h)

theorem empty_linked : Db.empty.Linked :=
  ⟨fun e he => by simp [Db.empty] at he, fun p hp => by simp [Db.empty, Store.values] at hp⟩

/-! ## Validation of the share request -/

theorem supplied_iff_truthy (x : Option String) : supplied x ↔ (truthy x).isSome = true := by
  rw [Option.isSome_iff_exists]
  constructor
  · rintro ⟨s, hs, hne⟩
    exact ⟨s, (truthy_eq_some x s).mpr ⟨hs, hne⟩⟩
  · rintro ⟨s, hs⟩
    exact ⟨s, (truthy_eq_some x s).mp hs⟩

theorem truthy_eq_none_of_not_supplied (x : Option String) (h : ¬ supplied x) :
    truthy x = none := by
  cases ht : truthy x with
  | none => rfl
  | some s => exact absurd ((supplied_iff_truthy x).mpr (by simp [ht])) h

/-- Claim C11.  For a share call on a document that is stored under `id` and
owned by the requester: the call answers 201 exactly when `grantedToEmail`,
`grantedToName` and `role` are all supplied (present and non-empty);
otherwise it answers 400 with the single error object
`Missing required fields` and the database, permissions and audit log
included, is the one before the call. -/
theorem share_requires_three_fields (db : Db) (userId id : String) (req : ShareRequest)
    (permissionId : String) (tPerm : Nat) (accessToken logId : String) (tLog : Nat)
    (d : Document) (hget : db.documents.get id = some d) (hown : d.userId = userId) :
    ((share db userId id req permissionId tPerm accessToken logId tLog).2.status = 201 ↔
      (supplied req.grantedToEmail ∧ supplied req.grantedToName ∧ supplied req.role)) ∧
    (¬ (supplied req.grantedToEmail ∧ supplied req.grantedToName ∧ supplied req.role) →
      share db userId id req permissionId tPerm accessToken logId tLog
        = (db, ⟨400, .error "Missing required fields"⟩)) := by
  have hshape : share db userId id req permissionId tPerm accessToken logId tLog
      = (db, ⟨400, .error "Missing required fields"⟩) ∨
      ((share db userId id req permissionId tPerm accessToken logId tLog).2.status = 201 ∧
        supplied req.grantedToEmail ∧ supplied req.grantedToName ∧ supplied req.role) := by
    simp only [share, logAudit, hget, hown, bne_self_eq_false, Bool.false_eq_true, ↓reduceIte]
    cases hge : truthy req.grantedToEmail with
    | none => exact Or.inl rfl
    | some ge =>
      cases hgn : truthy req.grantedToName with
      | none => exact Or.inl rfl
      | some gn =>
        cases hr : truthy req.role with
        | none => exact Or.inl rfl
        | some r =>
          exact Or.inr ⟨rfl, (supplied_iff_truthy _).mpr (by simp [hge]),
            (supplied_iff_truthy _).mpr (by simp [hgn]),
            (supplied_iff_truthy _).mpr (by simp [hr])⟩
  have hall : supplied req.grantedToEmail ∧ supplied req.grantedToName ∧ supplied req.role →
      (share db userId id req permissionId tPerm accessToken logId tLog).2.status = 201 := by
    rintro ⟨h1, h2, h3⟩
    obtain ⟨ge, hge⟩ := Option.isSome_iff_exists.mp ((supplied_iff_truthy _).mp h1)
    obtain ⟨gn, hgn⟩ := Option.isSome_iff_exists.mp ((supplied_iff_truthy _).mp h2)
    obtain ⟨r, hr⟩ := Option.isSome_iff_exists.mp ((supplied_iff_truthy _).mp h3)
    simp only [share, logAudit, hget, hown, bne_self_eq_false, Bool.false_eq_true, ↓reduceIte,
      hge, hgn, hr]
  refine ⟨⟨?_, hall⟩, ?_⟩
  · intro h201
    rcases hshape with h | h
    · rw [h] at h201
      simp at h201
    · exact h.2
  · intro hnot
    rcases hshape with h | h
    · exact h
    · exact absurd h.2 hnot

/-- Instance of C11 on `sampleDb`: `alice` shares her document once with the
role missing. -/
theorem share_requires_three_fields_witness :
    ((share sampleDb "u-alice" "d-1" shareWithoutRole "p-1" 3000 "tok" "l-2" 3001).2.status
        = 201 ↔
      (supplied shareWithoutRole.grantedToEmail ∧ supplied shareWithoutRole.grantedToName ∧
        supplied shareWithoutRole.role)) ∧
    (¬ (supplied shareWithoutRole.grantedToEmail ∧ supplied shareWithoutRole.grantedToName ∧
        supplied shareWithoutRole.role) →
      share sampleDb "u-alice" "d-1" shareWithoutRole "p-1" 3000 "tok" "l-2" 3001
        = (sampleDb, ⟨400, .error "Missing required fields"⟩)) :=
  share_requires_three_fields sampleDb "u-alice" "d-1" shareWithoutRole "p-1" 3000 "tok" "l-2"
    3001 aliceDoc (by decide) (by decide)

/-! ## Category and owner of an uploaded document -/

theorem Store.get_set_self {V : Type} (m : Store V) (k : String) (v : V) :
    Store.get (Store.set m k v) k = some v := by
  unfold Store.set
  split
  · rename_i h
    induction m with
    | nil => simp [Store.has] at h
    | cons e rest ih =>
      obtain ⟨k', v'⟩ := e
      by_cases hk : k' = k
      · have hhead : (if (k', v').1 = k then (k, v) else (k', v')) = (k, v) := if_pos hk
        rw [List.map_cons, hhead]
        simp [Store.get]
      · have hrest : Store.has rest k = true := by
          simpa [Store.has, hk] using h
        have hhead : (if (k', v').1 = k then (k, v) else (k', v')) = (k', v') := if_neg hk
        rw [List.map_cons, hhead]
        simp only [Store.get, hk, ↓reduceIte]
        exact ih hrest
  · rename_i h
    exact Store.get_append_fresh m k v (by simpa using h)

/-- Claim C12, as the code has it.  For every upload that answers 201, with
original filename `n`: the document in the response is the one stored under
the new id; its category is the request's `category` field when that field is
supplied (present and not empty) and `categorizeDocument(n).category` when
the field is absent or empty; its subcategory is decided in the same way from
the `subcategory` field, independently of the category; its `userId` is the
id of the authenticated uploader. -/
theorem upload_category_and_owner (rt : Runtime) (db : Db) (userId : String)
    (req : UploadRequest) (documentId : String) (tDoc : Nat) (logId : String) (tLog : Nat)
    (h201 : (upload rt db userId req documentId tDoc logId tLog).2.status = 201) :
    ∃ file d, req.file = some file ∧
      (upload rt db userId req documentId tDoc logId tLog).2.body = .document d ∧
      (upload rt db userId req documentId tDoc logId tLog).1.documents.get documentId = some d ∧
      d.originalName = file.originalname ∧
      (∀ c, req.category = some c → c ≠ "" → d.category = c) ∧
      (¬ supplied req.category →
        d.category = (categorizeDocument rt.toLowerCase file.originalname).category) ∧
      (∀ c, req.subcategory = some c → c ≠ "" → d.subcategory = c) ∧
      (¬ supplied req.subcategory →
        d.subcategory = (categorizeDocument rt.toLowerCase file.originalname).subcategory) ∧
      d.userId = userId := by
  simp only [upload, logAudit] at h201 ⊢
  cases hfile : req.file with
  | none => simp [hfile] at h201
  | some file =>
    refine ⟨file, _, rfl, rfl, Store.get_set_self _ _ _, rfl, ?_, ?_, ?_, ?_, rfl⟩
    · intro c hc hne
      simp [(truthy_eq_some _ _).mpr ⟨hc, hne⟩]
    · intro hns
      simp [truthy_eq_none_of_not_supplied _ hns]
    · intro c hc hne
      simp [(truthy_eq_some _ _).mpr ⟨hc, hne⟩]
    · intro hns
      simp [truthy_eq_none_of_not_supplied _ hns]

/-- Instance of C12 on `sampleDb`: `alice` uploads `w2_2023.pdf` with the
category `banking` and no subcategory. -/
theorem upload_category_and_owner_witness :
    ∃ file d, bankingUpload.file = some file ∧
      (upload sampleRuntime sampleDb "u-alice" bankingUpload "d-2" 3000 "l-2" 3001).2.body
        = .document d ∧
      (upload sampleRuntime sampleDb "u-alice" bankingUpload "d-2" 3000 "l-2"
        3001).1.documents.get "d-2" = some d ∧
      d.originalName = file.originalname ∧
      (∀ c, bankingUpload.category = some c → c ≠ "" → d.category = c) ∧
      (¬ supplied bankingUpload.category →
        d.category = (categorizeDocument sampleRuntime.toLowerCase file.originalname).category) ∧
      (∀ c, bankingUpload.subcategory = some c → c ≠ "" → d.subcategory = c) ∧
      (¬ supplied bankingUpload.subcategory →
        d.subcategory
          = (categorizeDocument sampleRuntime.toLowerCase file.originalname).subcategory) ∧
      d.userId = "u-alice" :=
  upload_category_and_owner sampleRuntime sampleDb "u-alice" bankingUpload "d-2" 3000 "l-2" 3001
    (by decide)

/-- Counterexample to C12 as stated: the request carries the fields `category`
and `subcategory`, both empty, and the stored document has the category and
subcategory computed from the filename, not the values of the fields. -/
theorem upload_empty_category_ignored :
    emptyCategoryUpload.category = some "" ∧
    emptyCategoryUpload.subcategory = some "" ∧
    (upload sampleRuntime Db.empty "u-alice" emptyCategoryUpload "d-1" 1000 "l-1" 1001).2
      = ⟨201, .document ⟨"d-1", "u-alice", "f-1.pdf", "w2_2023.pdf", 42, "application/pdf",
          "uploads/f-1.pdf", "tax", "w2", none, "", 1000⟩⟩ ∧
    (upload sampleRuntime Db.empty "u-alice" emptyCategoryUpload "d-1" 1000 "l-1"
      1001).1.documents.get "d-1"
      = some ⟨"d-1", "u-alice", "f-1.pdf", "w2_2023.pdf", 42, "application/pdf",
          "uploads/f-1.pdf", "tax", "w2", none, "", 1000⟩ := by
  decide

/-! ## Referential integrity of the permissions -/

theorem Store.get_of_has {V : Type} (m : Store V) (k : String) (h : Store.has m k = true) :
    ∃ v, Store.get m k = some v := by
  induction m with
  | nil => simp [Store.has] at h
  | cons e rest ih =>
    obtain ⟨k', v'⟩ := e
    by_cases hk : k' = k
    · exact ⟨v', by simp [Store.get, hk]⟩
    · have hrest : Store.has rest k = true := by
        simpa [Store.has, hk] using h
      obtain ⟨v, hv⟩ := ih hrest
      exact ⟨v, by simp only [Store.get, hk, ↓reduceIte, hv]⟩

/-- With fresh identifiers a call keeps every permission granted by the owner
of its document. -/
theorem step_granted (rt : Runtime) (db : Db) (c : Call) (hf : c.fresh db = true)
    (hl : db.Linked) (hg : db.Granted) : (step rt db c).1.Granted := by
  cases c with
  | register body passwordHash userId now token =>
    have hk := register_keeps_documents db body passwordHash userId now token
    simp only [step, Db.Granted, hk.1, hk.2.1]
    exact hg
  | login body token =>
    simp only [step, login_keeps_db]
    exact hg
  | upload userId req documentId tDoc logId tLog =>
    simp only [Call.fresh, Bool.and_eq_true, Bool.not_eq_true'] at hf
    simp only [step, upload, logAudit]
    split
    · exact hg
    · intro p hp
      obtain ⟨d, hd, hgr⟩ := hg p hp
      refine ⟨d, ?_, hgr⟩
      simp only [Store.set_of_not_has _ _ _ hf.1]
      exact Store.get_append_of_get _ _ _ _ hd
  | listDocuments userId => exact hg
  | share userId id req permissionId tPerm accessToken logId tLog =>
    simp only [step, share, logAudit]
    cases hget : db.documents.get id with
    | none => exact hg
    | some doc =>
      simp only
      by_cases hown : doc.userId = userId
      · simp only [hown, bne_self_eq_false, Bool.false_eq_true, ↓reduceIte]
        split
        · intro p hp
          simp only [Store.values] at hp
          obtain ⟨e, he, rfl⟩ := List.mem_map.mp hp
          rcases Store.mem_of_mem_set _ _ _ _ he with he | he
          · exact hg e.2 (List.mem_map.mpr ⟨e, he, rfl⟩)
          · rw [he]
            have hid : doc.id = id := hl.1 _ (Store.mem_of_get _ _ _ hget)
            refine ⟨doc, ?_, hown.symm⟩
            simp only [hid]
            exact hget
        · exact hg
      · have hne : (doc.userId != userId) = true := by simpa using hown
        simp only [hne, ↓reduceIte]
        exact hg
  | audit userId id =>
    simp only [step, audit]
    repeat' split
    all_goals exact hg
  | health now => exact hg

/-- In every state reached from a linked state with owner-granted permissions
by calls with fresh identifiers, the permissions are owner-granted. -/
theorem run_granted (rt : Runtime) (calls : List Call) (db : Db)
    (hf : freshRun rt db calls = true) (hl : db.Linked) (hg : db.Granted) :
    (run rt db calls).Granted := by
  induction calls generalizing db with
  | nil => exact hg
  | cons c cs ih =>
    simp only [freshRun, Bool.and_eq_true] at hf
    exact ih _ hf.2 (step_linked rt db c hl) (step_granted rt db c hf.1 hl hg)

/-- Claim C13.  In every state reached from the empty database by a sequence
of calls, every permission's `documentId` is the id of a document of the
document map (stored under that id); and when the generated identifiers are
fresh, the permission's `grantedBy` is the `userId` of that document. -/
theorem permissions_refer_to_owned_documents :
    (∀ (rt : Runtime) (calls : List Call),
      ∀ p ∈ (run rt Db.empty calls).permissions.values,
        ∃ d, (run rt Db.empty calls).documents.get p.documentId = some d ∧
          d.id = p.documentId) ∧
    (∀ (rt : Runtime) (calls : List Call),
      freshRun rt Db.empty calls = true →
      ∀ p ∈ (run rt Db.empty calls).permissions.values,
        ∃ d, (run rt Db.empty calls).documents.get p.documentId = some d ∧
          d.id = p.documentId ∧ p.grantedBy = d.userId) := by
  constructor
  · intro rt calls p hp
    have hl := run_linked rt calls Db.empty empty_linked
    obtain ⟨d, hd⟩ := Store.get_of_has _ _ (hl.2 p hp)
    exact ⟨d, hd, hl.1 _ (Store.mem_of_get _ _ _ hd)⟩
  · intro rt calls hf p hp
    have hl := run_linked rt calls Db.empty empty_linked
    have hg := run_granted rt calls Db.empty hf empty_linked
      (fun p hp => by simp [Db.empty, Store.values] at hp)
    obtain ⟨d, hd, hgr⟩ := hg p hp
    exact ⟨d, hd, hl.1 _ (Store.mem_of_get _ _ _ hd), hgr⟩

/-- Instance of C13: the permissions after the session of `alice`. -/
theorem permissions_refer_to_owned_documents_witness :
    ∀ p ∈ (run sampleRuntime Db.empty aliceSession).permissions.values,
      ∃ d, (run sampleRuntime Db.empty aliceSession).documents.get p.documentId = some d ∧
        d.id = p.documentId ∧ p.grantedBy = d.userId :=
  permissions_refer_to_owned_documents.2 sampleRuntime aliceSession (by decide)

/-! ## The two categorizers -/

/-- Claim C14.  For every filename whose lower-cased form contains neither
`1040` nor `1099`, the upload form's `categorizeFile` returns the category of
the backend's `categorizeDocument`; so the two can disagree only on a name
whose lower-cased form contains one of these two substrings, as they do on
`"1040_paystub.pdf"` (`income` against `tax`). -/
theorem categorizeFile_agrees_without_form_numbers :
    (∀ (toLowerCase : String → String) (f : String),
      includes (toLowerCase f) "1040" = false →
      includes (toLowerCase f) "1099" = false →
      categorizeFile toLowerCase f = (categorizeDocument toLowerCase f).category) ∧
    (∀ (toLowerCase : String → String) (f : String),
      categorizeFile toLowerCase f ≠ (categorizeDocument toLowerCase f).category →
      includes (toLowerCase f) "1040" = true ∨ includes (toLowerCase f) "1099" = true) ∧
    categorizeFile asciiToLowerCase "1040_paystub.pdf" = "income" ∧
    (categorizeDocument asciiToLowerCase "1040_paystub.pdf").category = "tax" := by
  have key : ∀ (toLowerCase : String → String) (f : String),
      includes (toLowerCase f) "1040" = false →
      includes (toLowerCase f) "1099" = false →
      categorizeFile toLowerCase f = (categorizeDocument toLowerCase f).category := by
    intro toLowerCase f h1040 h1099
    simp only [categorizeFile, categorizeDocument, h1040, h1099, Bool.false_eq_true, ↓reduceIte]
    generalize includes (toLowerCase f) "w2" = b1
    generalize includes (toLowerCase f) "w-2" = b2
    generalize includes (toLowerCase f) "paystub" = b5
    generalize includes (toLowerCase f) "payroll" = b6
    generalize includes (toLowerCase f) "bank" = b7
    generalize includes (toLowerCase f) "statement" = b8
    generalize includes (toLowerCase f) "mortgage" = b9
    generalize includes (toLowerCase f) "loan" = b10
    cases b1 <;> cases b2 <;> cases b5 <;> cases b6 <;> cases b7 <;> cases b8 <;> cases b9 <;>
      cases b10 <;> rfl
  refine ⟨key, ?_, by decide, by decide⟩
  intro toLowerCase f hne
  by_contra hnot
  apply hne
  apply key
  · cases h : includes (toLowerCase f) "1040" with
    | false => rfl
    | true => exact absurd (Or.inl h) hnot
  · cases h : includes (toLowerCase f) "1099" with
    | false => rfl
    | true => exact absurd (Or.inr h) hnot

/-- Instance of C14: a name with both `bank` and `loan`, and no form number. -/
theorem categorizeFile_agrees_without_form_numbers_witness :
    categorizeFile asciiToLowerCase "Bank_Loan_2023.PDF"
      = (categorizeDocument asciiToLowerCase "Bank_Loan_2023.PDF").category :=
  categorizeFile_agrees_without_form_numbers.1 asciiToLowerCase "Bank_Loan_2023.PDF"
    (by decide) (by decide)

/-! ## The user object of the authentication responses -/

/-- What a successful login returns: the found user without the hash. -/
theorem login_ok (rt : Runtime) (db : Db) (body : LoginBody) (token : String)
    (h : (login rt db body token).2.status = 200) :
    ∃ u, db.users.values.find? (fun u => some u.email == body.email) = some u ∧
      (login rt db body token).2 = ⟨200, .auth u.withoutPasswordHash token⟩ := by
  simp only [login] at h ⊢
  cases hf : db.users.values.find? (fun u => some u.email == body.email) with
  | none => simp [hf] at h
  | some u =>
    simp only [hf] at h ⊢
    cases hp : body.password with
    | none => simp [hp] at h
    | some pw =>
      simp only [hp] at h ⊢
      by_cases hc : rt.bcryptCompare pw u.passwordHash = true
      · exact ⟨u, rfl, by simp [hc]⟩
      · simp [hc] at h

/-- Two user lists that agree up to the password hashes give the same user
object for an email. -/
theorem find_without_hash (l1 l2 : List User) (email : Option String)
    (h : l1.map User.withoutPasswordHash = l2.map User.withoutPasswordHash) :
    (l1.find? (fun u => some u.email == email)).map User.withoutPasswordHash
      = (l2.find? (fun u => some u.email == email)).map User.withoutPasswordHash := by
  have hmap : ∀ l : List User,
      (l.find? (fun u => some u.email == email)).map User.withoutPasswordHash
        = (l.map User.withoutPasswordHash).find? (fun r => some r.email == email) := by
    intro l
    induction l with
    | nil => rfl
    | cons u us ih =>
      simp only [List.find?_cons, List.map_cons, User.withoutPasswordHash]
      cases hc : (some u.email == email) with
      | true => rfl
      | false => simpa [User.withoutPasswordHash] using ih
  rw [hmap l1, hmap l2, h]

/-- Claim C15.  The user object of a 201 registration and of a 200 login is the
stored user record field for field (`id`, `email`, `firstName`, `lastName`,
`createdAt`, `subscriptionTier`) and carries nothing else, in particular no
`passwordHash`: the registration response is the same for every hash, and two
successful logins with one email on databases that differ only in the stored
password hashes return the same user object. -/
theorem auth_response_without_hash :
    (∀ (db : Db) (body : RegisterBody) (passwordHash userId : String) (now : Nat)
        (token : String),
      (register db body passwordHash userId now token).2.status = 201 →
      ∃ u, (register db body passwordHash userId now token).1.users.get userId = some u ∧
        u.passwordHash = passwordHash ∧
        (register db body passwordHash userId now token).2.body
          = .auth ⟨u.id, u.email, u.firstName, u.lastName, u.createdAt, u.subscriptionTier⟩
              token) ∧
    (∀ (rt : Runtime) (db : Db) (body : LoginBody) (token : String),
      (login rt db body token).2.status = 200 →
      ∃ u ∈ db.users.values, some u.email = body.email ∧
        (login rt db body token).2.body
          = .auth ⟨u.id, u.email, u.firstName, u.lastName, u.createdAt, u.subscriptionTier⟩
              token) ∧
    (∀ (db : Db) (body : RegisterBody) (hash1 hash2 userId : String) (now : Nat)
        (token : String),
      (register db body hash1 userId now token).2
        = (register db body hash2 userId now token).2) ∧
    (∀ (rt1 rt2 : Runtime) (db1 db2 : Db) (body1 body2 : LoginBody) (token : String),
      db1.users.values.map User.withoutPasswordHash
        = db2.users.values.map User.withoutPasswordHash →
      body1.email = body2.email →
      (login rt1 db1 body1 token).2.status = 200 →
      (login rt2 db2 body2 token).2.status = 200 →
      (login rt1 db1 body1 token).2 = (login rt2 db2 body2 token).2) := by
  refine ⟨?_, ?_, ?_, ?_⟩
  · intro db body passwordHash userId now token h201
    simp only [register_unfold] at h201 ⊢
    split
    · rename_i email pw fn ln he hp hf hl
      simp only [he, hp, hf, hl] at h201
      split
      · rename_i hex
        simp [hex] at h201
      · exact ⟨_, Store.get_set_self _ _ _, rfl, rfl⟩
    · rename_i hmiss
      split at h201
      · rename_i email pw fn ln he hp hf hl
        exact absurd hl (hmiss email pw fn ln he hp hf)
      · simp at h201
  · intro rt db body token h200
    obtain ⟨u, hfind, hresp⟩ := login_ok rt db body token h200
    refine ⟨u, List.mem_of_find?_eq_some hfind, ?_, by rw [hresp]; rfl⟩
    simpa using List.find?_some hfind
  · intro db body hash1 hash2 userId now token
    simp only [register_unfold]
    repeat' split
    all_goals rfl
  · intro rt1 rt2 db1 db2 body1 body2 token hsame hemail h1 h2
    obtain ⟨u1, hf1, hr1⟩ := login_ok rt1 db1 body1 token h1
    obtain ⟨u2, hf2, hr2⟩ := login_ok rt2 db2 body2 token h2
    have h := find_without_hash _ _ body1.email hsame
    rw [hf1, hemail, hf2] at h
    simp only [Option.map_some', Option.some.injEq] at h
    rw [hr1, hr2, h]

/-- Instance of C15: the registration of `alice` on the empty database, her
login on `sampleDb`, and her logins on `sampleDb` and on `rehashedDb`. -/
theorem auth_response_without_hash_witness :
    (∃ u, (register Db.empty aliceRegistration "h:secret" "u-alice" 1000 "t-0").1.users.get
          "u-alice" = some u ∧
        u.passwordHash = "h:secret" ∧
        (register Db.empty aliceRegistration "h:secret" "u-alice" 1000 "t-0").2.body
          = .auth ⟨u.id, u.email, u.firstName, u.lastName, u.createdAt, u.subscriptionTier⟩
              "t-0") ∧
    (∃ u ∈ sampleDb.users.values,
        some u.email = (⟨some "alice@x.com", some "secret"⟩ : LoginBody).email ∧
        (login sampleRuntime sampleDb ⟨some "alice@x.com", some "secret"⟩ "t-1").2.body
          = .auth ⟨u.id, u.email, u.firstName, u.lastName, u.createdAt, u.subscriptionTier⟩
              "t-1") ∧
    (login sampleRuntime sampleDb ⟨some "alice@x.com", some "secret"⟩ "t-1").2
      = (login sampleRuntime rehashedDb ⟨some "alice@x.com", some "other"⟩ "t-1").2 :=
  ⟨auth_response_without_hash.1 Db.empty aliceRegistration "h:secret" "u-alice" 1000 "t-0"
      (by decide),
    auth_response_without_hash.2.1 sampleRuntime sampleDb ⟨some "alice@x.com", some "secret"⟩
      "t-1" (by decide),
    auth_response_without_hash.2.2.2 sampleRuntime sampleRuntime sampleDb rehashedDb
      ⟨some "alice@x.com", some "secret"⟩ ⟨some "alice@x.com", some "other"⟩ "t-1"
      (by decide) rfl (by decide) (by decide)⟩

end PaperTrail
